import Mathlib

/-!
# Ridge linear regression by gradient descent on sufficient statistics

A shallow embedding of `src/functions/linear_regression.cpp`.

* `float` values are modelled as exact rationals (`ℚ`): unless a statement says otherwise it
  is about exact arithmetic, that is, about the program with no rounding of its `float`
  operations.
* `int` values are 32-bit: an `int` operation yields `wrapInt32` of the exact result, which is
  what the compiled program computes when a product or a sum leaves `[-2^31, 2^31)`.
* `std::vector<std::vector<float>>` is a list of rows.  `v[i]` on a vector is a checked read:
  an index outside the vector makes the whole computation return `none`.
* The matrix primitives of the source write into a caller-supplied buffer that is passed by
  reference and is, at several call sites, the same object as the first operand.  An operand
  is therefore a `Ref`: either a matrix of its own or the result buffer itself.
* A `for (size_t i = 0; i < bound; i++)` loop is `forLoop bound body`.  No function of the
  source resizes a vector, so the bound read at loop entry is the bound of every later test.
* Division is the division of `ℚ`.  The properties below concern non-empty datasets, on
  which the divisor of every factor `1 / n` is positive.
-/

namespace LinearRegression

/-- A matrix is a list of rows (`std::vector<std::vector<float>>`). -/
abbrev Matrix := List (List ℚ)

/-- Checked read of `m[i][j]`. -/
def Matrix.rd (m : Matrix) (i j : Nat) : Option ℚ :=
  match m[i]? with
  | none => none
  | some row => row[j]?

/-- Checked assignment `m[i][j] = v`. -/
def Matrix.wr (m : Matrix) (i j : Nat) (v : ℚ) : Option Matrix :=
  match m[i]? with
  | none => none
  | some row => if j < row.length then some (m.set i (row.set j v)) else none

/-- The expression `m[0].size()`. -/
def Matrix.cols0 (m : Matrix) : Option Nat :=
  match m[0]? with
  | none => none
  | some row => some row.length

/-- The constructor call `std::vector<std::vector<float>>(r, std::vector<float>(c, v))`. -/
def Matrix.fill (r c : Nat) (v : ℚ) : Matrix :=
  List.replicate r (List.replicate c v)

/-- Total read used to state results: `m[i][j]`, and `0` outside the matrix. -/
def Matrix.entry (m : Matrix) (i j : Nat) : ℚ :=
  (m.getD i []).getD j 0

/-- The matrix `m` has exactly `r` rows, each of exactly `c` entries. -/
def Matrix.Shape (r c : Nat) (m : Matrix) : Prop :=
  m.length = r ∧ ∀ row ∈ m, row.length = c

instance (r c : Nat) (m : Matrix) : Decidable (Matrix.Shape r c m) := by
  unfold Matrix.Shape; infer_instance

/-- The loop `for (size_t i = 0; i < n; i++) body(i)` over a state `σ`. -/
def forLoop {σ : Type} (n : Nat) (body : Nat → σ → Option σ) (s : σ) : Option σ :=
  match n with
  | 0 => some s
  | k + 1 => (forLoop k body s).bind (body k)

/-- A by-reference matrix operand of a primitive that writes into a result buffer. -/
inductive Ref where
  /-- an object distinct from the result buffer -/
  | val (m : Matrix)
  /-- the result buffer itself (the call passes the same variable twice) -/
  | out

/-- The current contents of an operand, given the current contents of the result buffer. -/
def Ref.read (r : Ref) (result : Matrix) : Matrix :=
  match r with
  | Ref.val m => m
  | Ref.out => result

/-- Source `getGradient1D`: `(1.0 / n) * ((Sigma * theta - C) + (lambda * theta))`. -/
def getGradient1D (n : Nat) (Sigma C : ℤ) (theta lambda : ℚ) : ℚ :=
  (1 / (n : ℚ)) * (((Sigma : ℚ) * theta - (C : ℚ)) + (lambda * theta))

/-- The value an `int` holds after an arithmetic result `x`: the representative of `x` modulo
`2^32` in `[-2^31, 2^31)`. -/
def wrapInt32 (x : ℤ) : ℤ :=
  (x + 2147483648) % 4294967296 - 2147483648

/-- The accumulation loop of `linearRegression1D` (lines 17-22): state is `(Sigma, C)`, two
`int` variables; the products and the sums are `int` operations. -/
def accumulate1D (features labels : List ℤ) : Option (ℤ × ℤ) :=
  forLoop features.length (fun i st => do
    let x ← features[i]?
    let y ← labels[i]?
    pure (wrapInt32 (st.1 + wrapInt32 (x * x)), wrapInt32 (st.2 + wrapInt32 (x * y)))) (0, 0)

/-- One iteration of the descent loop of `linearRegression1D` (lines 27-29): the state
is `theta`. -/
def descentStep1D (n : Nat) (Sigma C : ℤ) (alpha lambda : ℚ) (theta : ℚ) : ℚ :=
  let gradient := getGradient1D n Sigma C theta lambda
  theta - alpha * gradient

/-- Source `linearRegression1D`. -/
def linearRegression1D (features labels : List ℤ) (alpha lambda : ℚ) (iter : Nat) :
    Option ℚ := do
  let n := features.length
  let theta : ℚ := 1
  let (Sigma, C) ← accumulate1D features labels
  forLoop iter (fun _ theta => some (descentStep1D n Sigma C alpha lambda theta)) theta

/-- Source `matrixScalarMultiply`. -/
def matrixScalarMultiply (matrix : Ref) (scalar : ℚ) (result : Matrix) : Option Matrix :=
  forLoop (matrix.read result).length (fun i res => do
    let cols ← (matrix.read res).cols0
    forLoop cols (fun j res => do
      let a ← (matrix.read res).rd i j
      res.wr i j (a * scalar)) res) result

/-- Source `matrixMultiply`: `result[i][j] += matrix1[i][k] * matrix2[k][j]`. -/
def matrixMultiply (matrix1 matrix2 : Ref) (result : Matrix) : Option Matrix :=
  forLoop (matrix1.read result).length (fun i res => do
    let cols ← (matrix2.read res).cols0
    forLoop cols (fun j res =>
      forLoop (matrix2.read res).length (fun k res => do
        let r ← res.rd i j
        let a ← (matrix1.read res).rd i k
        let b ← (matrix2.read res).rd k j
        res.wr i j (r + a * b)) res) res) result

/-- Source `matrixSubtract`. -/
def matrixSubtract (matrix1 matrix2 : Ref) (result : Matrix) : Option Matrix :=
  forLoop (matrix1.read result).length (fun i res => do
    let cols ← (matrix1.read res).cols0
    forLoop cols (fun j res => do
      let a ← (matrix1.read res).rd i j
      let b ← (matrix2.read res).rd i j
      res.wr i j (a - b)) res) result

/-- Source `matrixAdd`. -/
def matrixAdd (matrix1 matrix2 : Ref) (result : Matrix) : Option Matrix :=
  forLoop (matrix1.read result).length (fun i res => do
    let cols ← (matrix1.read res).cols0
    forLoop cols (fun j res => do
      let a ← (matrix1.read res).rd i j
      let b ← (matrix2.read res).rd i j
      res.wr i j (a + b)) res) result

/-- Source `getGradientND`.  Note `n = sigma.size()`. -/
def getGradientND (sigma c theta : Matrix) (lambda : ℚ) : Option Matrix := do
  let n := sigma.length
  let d ← sigma.cols0
  let result := Matrix.fill d 1 0
  let result ← matrixMultiply (Ref.val sigma) (Ref.val theta) result
  let result ← matrixSubtract Ref.out (Ref.val c) result
  let result ← matrixScalarMultiply Ref.out (1 / (n : ℚ)) result
  let regularizer := Matrix.fill d 1 0
  let regularizer ← matrixScalarMultiply (Ref.val theta) lambda regularizer
  let result ← matrixAdd Ref.out (Ref.val regularizer) result
  pure result

/-- The accumulation pass of `linearRegressionND` (lines 106-119): the state is `(sigma, c)`. -/
def accumulateND (features labels : Matrix) : Option (Matrix × Matrix) := do
  let n := features.length
  let d ← features.cols0
  let sigma := Matrix.fill d d 0
  let c := Matrix.fill d 1 0
  forLoop d (fun i st =>
    forLoop n (fun k st => do
      let x ← features.rd k i
      let y ← labels.rd k 0
      let c0 ← st.2.rd i 0
      let c1 ← st.2.wr i 0 (c0 + x * y)
      forLoop d (fun j st => do
        let s0 ← st.1.rd i j
        let xi ← features.rd k i
        let xj ← features.rd k j
        let s1 ← st.1.wr i j (s0 + xi * xj)
        pure (s1, st.2)) (st.1, c1)) st) (sigma, c)

/-- One iteration of the descent loop of `linearRegressionND` (lines 122-124): the state
is `theta`. -/
def descentStepND (sigma c : Matrix) (alpha lambda : ℚ) (theta : Matrix) : Option Matrix := do
  let gradient ← getGradientND sigma c theta lambda
  let gradient ← matrixScalarMultiply Ref.out alpha gradient
  matrixSubtract Ref.out (Ref.val gradient) theta

/-- Source `linearRegressionND`. -/
def linearRegressionND (features labels : Matrix) (alpha lambda : ℚ) (iter : Nat) :
    Option Matrix := do
  let d ← features.cols0
  let theta := Matrix.fill d 1 1
  let (sigma, c) ← accumulateND features labels
  forLoop iter (fun _ theta => descentStepND sigma c alpha lambda theta) theta

/-- The matrix `m` after `m[i][j] = v`. -/
def Matrix.upd (m : Matrix) (i j : Nat) (v : ℚ) : Matrix :=
  m.set i ((m.getD i []).set j v)

/-- The `r × c` matrix with entries `f i j`. -/
def Matrix.ofFn (r c : Nat) (f : Nat → Nat → ℚ) : Matrix :=
  (List.range r).map (fun i => (List.range c).map (fun j => f i j))

/-- What an operand holds at `(i, j)`, given what the result buffer holds there. -/
def Ref.pick (a : Ref) (i j : Nat) (x : ℚ) : ℚ :=
  match a with
  | Ref.val m => m.entry i j
  | Ref.out => x

/-- An operand of its own has shape `r × c`; an aliased operand has the buffer's shape. -/
def Ref.Shape (r c : Nat) (a : Ref) : Prop :=
  match a with
  | Ref.val m => Matrix.Shape r c m
  | Ref.out => True

/-- The sum of squared features, in the words of the specification of the scalar form. -/
def sumSquares (features : List ℤ) : ℤ :=
  (features.map (fun x => x * x)).sum

/-- The sum of feature-label products, in the words of the specification of the scalar form. -/
def sumProducts (features labels : List ℤ) : ℤ :=
  (List.zipWith (fun x y => x * y) features labels).sum

/-- The sum of the absolute values of the feature-label products: a bound on every partial
sum that the accumulation of `C` goes through. -/
def sumAbsProducts (features labels : List ℤ) : ℤ :=
  (List.zipWith (fun x y => |x * y|) features labels).sum

/-- Unregularized least-squares gradient descent in the words of the specification: start at
`theta = 1` and apply `theta ← theta - alpha * (1/n) * (Sigma * theta - C)` exactly `iter`
times. -/
def unregularizedDescent1D (n : Nat) (Sigma C : ℤ) (alpha : ℚ) (iter : Nat) : ℚ :=
  (fun theta : ℚ => theta - alpha * (1 / (n : ℚ)) * ((Sigma : ℚ) * theta - (C : ℚ)))^[iter] 1

/-- The integer nearest to `y`, the even one of the two when `y` is half-way. -/
def roundHalfEven (y : ℚ) : ℤ :=
  let f := ⌊y⌋
  if y - (f : ℚ) < 1 / 2 then f
  else if 1 / 2 < y - (f : ℚ) then f + 1
  else if f % 2 = 0 then f else f + 1

/-- The number of binary digits of `n`, by halving at most `fuel` times. -/
def bitLength (fuel n : Nat) : Nat :=
  match fuel with
  | 0 => 0
  | k + 1 => if n = 0 then 0 else bitLength k (n / 2) + 1

/-- The binary exponent of `x ≠ 0`: the `e` with `2^e ≤ |x| < 2^(e+1)`. -/
def binExponent (x : ℚ) : ℤ :=
  let e0 : ℤ := (bitLength x.num.natAbs x.num.natAbs : ℤ) - (bitLength x.den x.den : ℤ)
  if (2 : ℚ) ^ e0 ≤ |x| then e0 else e0 - 1

/-- Rounding of `x` to a binary floating-point number with `prec` significant bits. -/
def roundBinary (prec : Nat) (x : ℚ) : ℚ :=
  if x = 0 then 0
  else
    let ulp : ℚ := (2 : ℚ) ^ (binExponent x - ((prec : ℤ) - 1))
    (roundHalfEven (x / ulp) : ℚ) * ulp

/-- Rounding to `float` (binary32, 24 significant bits). -/
def roundF32 (x : ℚ) : ℚ := roundBinary 24 x

/-- Rounding to `double` (binary64, 53 significant bits). -/
def roundF64 (x : ℚ) : ℚ := roundBinary 53 x

/-- Source `matrixScalarMultiply`, in binary32. -/
def Binary32.matrixScalarMultiply (matrix : Ref) (scalar : ℚ) (result : Matrix) :
    Option Matrix :=
  forLoop (matrix.read result).length (fun i res => do
    let cols ← (matrix.read res).cols0
    forLoop cols (fun j res => do
      let a ← (matrix.read res).rd i j
      res.wr i j (roundF32 (a * scalar))) res) result

/-- Source `matrixMultiply`, in binary32. -/
def Binary32.matrixMultiply (matrix1 matrix2 : Ref) (result : Matrix) : Option Matrix :=
  forLoop (matrix1.read result).length (fun i res => do
    let cols ← (matrix2.read res).cols0
    forLoop cols (fun j res =>
      forLoop (matrix2.read res).length (fun k res => do
        let r ← res.rd i j
        let a ← (matrix1.read res).rd i k
        let b ← (matrix2.read res).rd k j
        res.wr i j (roundF32 (r + roundF32 (a * b)))) res) res) result

/-- Source `matrixSubtract`, in binary32. -/
def Binary32.matrixSubtract (matrix1 matrix2 : Ref) (result : Matrix) : Option Matrix :=
  forLoop (matrix1.read result).length (fun i res => do
    let cols ← (matrix1.read res).cols0
    forLoop cols (fun j res => do
      let a ← (matrix1.read res).rd i j
      let b ← (matrix2.read res).rd i j
      res.wr i j (roundF32 (a - b))) res) result

/-- Source `matrixAdd`, in binary32. -/
def Binary32.matrixAdd (matrix1 matrix2 : Ref) (result : Matrix) : Option Matrix :=
  forLoop (matrix1.read result).length (fun i res => do
    let cols ← (matrix1.read res).cols0
    forLoop cols (fun j res => do
      let a ← (matrix1.read res).rd i j
      let b ← (matrix2.read res).rd i j
      res.wr i j (roundF32 (a + b))) res) result

/-- Source `getGradientND`, in binary32; `1.0 / n` is a `double` division whose result is
converted to the `float` parameter `scalar`. -/
def Binary32.getGradientND (sigma c theta : Matrix) (lambda : ℚ) : Option Matrix := do
  let n := sigma.length
  let d ← sigma.cols0
  let result := Matrix.fill d 1 0
  let result ← Binary32.matrixMultiply (Ref.val sigma) (Ref.val theta) result
  let result ← Binary32.matrixSubtract Ref.out (Ref.val c) result
  let result ← Binary32.matrixScalarMultiply Ref.out (roundF32 (roundF64 (1 / (n : ℚ)))) result
  let regularizer := Matrix.fill d 1 0
  let regularizer ← Binary32.matrixScalarMultiply (Ref.val theta) lambda regularizer
  let result ← Binary32.matrixAdd Ref.out (Ref.val regularizer) result
  pure result

/-- The accumulation pass of `linearRegressionND` (lines 106-119), in binary32. -/
def Binary32.accumulateND (features labels : Matrix) : Option (Matrix × Matrix) := do
  let n := features.length
  let d ← features.cols0
  let sigma := Matrix.fill d d 0
  let c := Matrix.fill d 1 0
  forLoop d (fun i st =>
    forLoop n (fun k st => do
      let x ← features.rd k i
      let y ← labels.rd k 0
      let c0 ← st.2.rd i 0
      let c1 ← st.2.wr i 0 (roundF32 (c0 + roundF32 (x * y)))
      forLoop d (fun j st => do
        let s0 ← st.1.rd i j
        let xi ← features.rd k i
        let xj ← features.rd k j
        let s1 ← st.1.wr i j (roundF32 (s0 + roundF32 (xi * xj)))
        pure (s1, st.2)) (st.1, c1)) st) (sigma, c)

/-- One iteration of the descent loop of `linearRegressionND` (lines 122-124), in binary32. -/
def Binary32.descentStepND (sigma c : Matrix) (alpha lambda : ℚ) (theta : Matrix) :
    Option Matrix := do
  let gradient ← Binary32.getGradientND sigma c theta lambda
  let gradient ← Binary32.matrixScalarMultiply Ref.out alpha gradient
  Binary32.matrixSubtract Ref.out (Ref.val gradient) theta

/-- Source `linearRegressionND`, in binary32. -/
def Binary32.linearRegressionND (features labels : Matrix) (alpha lambda : ℚ) (iter : Nat) :
    Option Matrix := do
  let d ← features.cols0
  let theta := Matrix.fill d 1 1
  let (sigma, c) ← Binary32.accumulateND features labels
  forLoop iter (fun _ theta => Binary32.descentStepND sigma c alpha lambda theta) theta

/-! ## The loop rule -/

/-- Total-correctness rule for `forLoop`: an invariant that holds at entry and is carried by
every iteration holds at exit, and the loop returns. -/
theorem forLoop_inv {σ : Type} (P : Nat → σ → Prop) (n : Nat) (body : Nat → σ → Option σ)
    (s : σ) (h0 : P 0 s)
    (hstep : ∀ i t, i < n → P i t → ∃ t', body i t = some t' ∧ P (i + 1) t') :
    ∃ t, forLoop n body s = some t ∧ P n t := by
  induction n with
  | zero => exact ⟨s, rfl, h0⟩
  | succ k ih =>
    obtain ⟨t, ht, hP⟩ := ih (fun i t hi hp => hstep i t (Nat.lt_succ_of_lt hi) hp)
    obtain ⟨t', ht', hP'⟩ := hstep k t (Nat.lt_succ_self k) hP
    exact ⟨t', by simp [forLoop, ht, ht'], hP'⟩

theorem forLoop_succ {σ : Type} (n : Nat) (body : Nat → σ → Option σ) (s : σ) :
    forLoop (n + 1) body s = (forLoop n body s).bind (body n) := rfl

theorem forLoop_step {σ : Type} {n : Nat} {body : Nat → σ → Option σ} {s t t' : σ}
    (h : forLoop n body s = some t) (h' : body n t = some t') :
    forLoop (n + 1) body s = some t' := by
  rw [forLoop_succ, h]; exact h'

/-! ## Reads and writes on a matrix of known shape -/

theorem Matrix.Shape.row {r c : Nat} {m : Matrix} (h : Matrix.Shape r c m) {i : Nat}
    (hi : i < r) : ∃ row, m[i]? = some row ∧ row.length = c := by
  have hi' : i < m.length := by rw [h.1]; exact hi
  exact ⟨m[i], List.getElem?_eq_getElem hi', h.2 _ (List.getElem_mem hi')⟩

theorem Matrix.rd_eq {r c : Nat} {m : Matrix} (h : Matrix.Shape r c m) {i j : Nat}
    (hi : i < r) (hj : j < c) : m.rd i j = some (m.entry i j) := by
  obtain ⟨row, hrow, hlen⟩ := h.row hi
  have hj' : j < row.length := by rw [hlen]; exact hj
  simp [Matrix.rd, Matrix.entry, hrow, List.getD_eq_getElem?_getD, List.getElem?_eq_getElem hj']

theorem Matrix.wr_eq {r c : Nat} {m : Matrix} (h : Matrix.Shape r c m) {i j : Nat}
    (hi : i < r) (hj : j < c) (v : ℚ) : m.wr i j v = some (m.upd i j v) := by
  obtain ⟨row, hrow, hlen⟩ := h.row hi
  have hj' : j < row.length := by rw [hlen]; exact hj
  simp [Matrix.wr, Matrix.upd, hrow, List.getD_eq_getElem?_getD, hj']

theorem Matrix.cols0_eq {r c : Nat} {m : Matrix} (h : Matrix.Shape r c m) (hr : 0 < r) :
    m.cols0 = some c := by
  obtain ⟨row, hrow, hlen⟩ := h.row hr
  simp [Matrix.cols0, hrow, hlen]

theorem Matrix.Shape.upd {r c : Nat} {m : Matrix} (h : Matrix.Shape r c m) (i j : Nat)
    (v : ℚ) : Matrix.Shape r c (m.upd i j v) := by
  refine ⟨by simp [Matrix.upd, h.1], ?_⟩
  intro row hrow
  by_cases hi : i < m.length
  · rcases List.mem_or_eq_of_mem_set hrow with h1 | h1
    · exact h.2 _ h1
    · subst h1
      rw [List.length_set, List.getD_eq_getElem?_getD, List.getElem?_eq_getElem hi]
      exact h.2 _ (List.getElem_mem hi)
  · rw [Matrix.upd, List.set_eq_of_length_le (Nat.le_of_not_lt hi)] at hrow
    exact h.2 _ hrow

theorem Matrix.entry_upd {r c : Nat} {m : Matrix} (h : Matrix.Shape r c m) {i j : Nat}
    (hi : i < r) (hj : j < c) (v : ℚ) (i' j' : Nat) :
    (m.upd i j v).entry i' j' = if i' = i ∧ j' = j then v else m.entry i' j' := by
  obtain ⟨row, hrow, hlen⟩ := h.row hi
  have hi' : i < m.length := by rw [h.1]; exact hi
  have hj' : j < row.length := by rw [hlen]; exact hj
  simp only [Matrix.upd, Matrix.entry, List.getD_eq_getElem?_getD, hrow, Option.getD_some,
    List.getElem?_set]
  by_cases h1 : i = i'
  · subst h1
    by_cases h2 : j = j'
    · subst h2
      simp [hi', hj']
    · have h2' : ¬ j' = j := fun e => h2 e.symm
      simp [hi', h2, h2', hrow]
  · have h1' : ¬ i' = i := fun e => h1 e.symm
    simp [h1, h1']

theorem Matrix.ext_of_shape {r c : Nat} {m m' : Matrix} (h : Matrix.Shape r c m)
    (h' : Matrix.Shape r c m')
    (he : ∀ i j, i < r → j < c → m.entry i j = m'.entry i j) : m = m' := by
  apply List.ext_getElem (by rw [h.1, h'.1])
  intro i h1 h2
  have hr1 : (m[i]).length = c := h.2 _ (List.getElem_mem h1)
  have hr2 : (m'[i]).length = c := h'.2 _ (List.getElem_mem h2)
  apply List.ext_getElem (by rw [hr1, hr2])
  intro j h3 h4
  have := he i j (by rw [← h.1]; exact h1) (by rw [← hr1]; exact h3)
  simpa [Matrix.entry, List.getD_eq_getElem?_getD, List.getElem?_eq_getElem h1,
    List.getElem?_eq_getElem h2, List.getElem?_eq_getElem h3, List.getElem?_eq_getElem h4]
    using this

theorem Matrix.shape_ofFn (r c : Nat) (f : Nat → Nat → ℚ) :
    Matrix.Shape r c (Matrix.ofFn r c f) := by
  refine ⟨by simp [Matrix.ofFn], ?_⟩
  intro row hrow
  simp only [Matrix.ofFn, List.mem_map] at hrow
  obtain ⟨i, _, rfl⟩ := hrow
  simp

theorem Matrix.entry_ofFn {r c : Nat} (f : Nat → Nat → ℚ) {i j : Nat} (hi : i < r)
    (hj : j < c) : (Matrix.ofFn r c f).entry i j = f i j := by
  simp [Matrix.ofFn, Matrix.entry, List.getD_eq_getElem?_getD, List.getElem?_map,
    List.getElem?_range, hi, hj]

theorem Matrix.shape_fill (r c : Nat) (v : ℚ) : Matrix.Shape r c (Matrix.fill r c v) := by
  refine ⟨by simp [Matrix.fill], ?_⟩
  intro row hrow
  rw [Matrix.fill] at hrow
  rw [List.eq_of_mem_replicate hrow]
  simp

theorem Matrix.entry_fill {r c : Nat} (v : ℚ) {i j : Nat} (hi : i < r) (hj : j < c) :
    (Matrix.fill r c v).entry i j = v := by
  simp [Matrix.fill, Matrix.entry, List.getD_eq_getElem?_getD, List.getElem?_replicate, hi, hj]

theorem Matrix.fill_eq_ofFn (r c : Nat) (v : ℚ) :
    Matrix.fill r c v = Matrix.ofFn r c (fun _ _ => v) := by
  apply Matrix.ext_of_shape (Matrix.shape_fill r c v) (Matrix.shape_ofFn r c _)
  intro i j hi hj
  rw [Matrix.entry_fill v hi hj, Matrix.entry_ofFn _ hi hj]

theorem Matrix.upd_upd {r c : Nat} {m : Matrix} (h : Matrix.Shape r c m) {i j : Nat}
    (hi : i < r) (hj : j < c) (v w : ℚ) : (m.upd i j v).upd i j w = m.upd i j w := by
  apply Matrix.ext_of_shape ((h.upd i j v).upd i j w) (h.upd i j w)
  intro i' j' _ _
  rw [Matrix.entry_upd (h.upd i j v) hi hj, Matrix.entry_upd h hi hj,
    Matrix.entry_upd h hi hj]
  split <;> rfl

theorem Matrix.upd_entry {r c : Nat} {m : Matrix} (h : Matrix.Shape r c m) {i j : Nat}
    (hi : i < r) (hj : j < c) : m.upd i j (m.entry i j) = m := by
  apply Matrix.ext_of_shape (h.upd i j _) h
  intro i' j' _ _
  rw [Matrix.entry_upd h hi hj]
  split
  · rename_i h1; rw [h1.1, h1.2]
  · rfl

theorem Ref.shape_read {r c : Nat} {a : Ref} (ha : a.Shape r c) {res : Matrix}
    (h : Matrix.Shape r c res) : Matrix.Shape r c (a.read res) := by
  cases a with
  | val m => exact ha
  | out => exact h

theorem Ref.entry_read (a : Ref) (res : Matrix) (i j : Nat) :
    (a.read res).entry i j = a.pick i j (res.entry i j) := by
  cases a <;> rfl

/-! ## Loops that assign every cell of a row, and every row of a matrix -/

/-- A loop over the columns `j < c` whose iteration `j` assigns `g j (old value)` to
cell `(i, j)` rewrites row `i` and nothing else. -/
theorem rowLoop_eq {r c : Nat} (step : Nat → Matrix → Option Matrix) (g : Nat → ℚ → ℚ)
    {i : Nat} (hi : i < r)
    (hstep : ∀ j res, j < c → Matrix.Shape r c res →
      step j res = some (res.upd i j (g j (res.entry i j))))
    (res0 : Matrix) (h0 : Matrix.Shape r c res0) :
    forLoop c step res0 = some (Matrix.ofFn r c (fun i' j' =>
      if i' = i then g j' (res0.entry i j') else res0.entry i' j')) := by
  obtain ⟨t, ht, hs, he⟩ := forLoop_inv
    (fun j res => Matrix.Shape r c res ∧ ∀ i' j', i' < r → j' < c →
      res.entry i' j' = if i' = i ∧ j' < j then g j' (res0.entry i j') else res0.entry i' j')
    c step res0 ⟨h0, by intro i' j' _ _; simp⟩
    (by
      intro j res hj ⟨hs, he⟩
      refine ⟨_, hstep j res hj hs, hs.upd _ _ _, ?_⟩
      intro i' j' hi' hj'
      rw [Matrix.entry_upd hs hi hj, he i' j' hi' hj', he i j hi hj]
      by_cases h1 : i' = i
      · by_cases h2 : j' = j
        · subst h1; subst h2; simp
        · have h3 : j' < j + 1 ↔ j' < j := by omega
          simp [h1, h2, h3]
      · simp [h1])
  rw [ht]
  congr 1
  apply Matrix.ext_of_shape hs (Matrix.shape_ofFn r c _)
  intro i' j' hi' hj'
  rw [he i' j' hi' hj', Matrix.entry_ofFn _ hi' hj']
  simp [hj']

/-- A loop over the rows `i < r` whose iteration `i` rewrites row `i` cell by cell
rewrites the whole matrix cell by cell. -/
theorem gridLoop_eq {r c : Nat} (body : Nat → Matrix → Option Matrix) (g : Nat → Nat → ℚ → ℚ)
    (hbody : ∀ i res, i < r → Matrix.Shape r c res →
      body i res = some (Matrix.ofFn r c (fun i' j' =>
        if i' = i then g i j' (res.entry i j') else res.entry i' j')))
    (res0 : Matrix) (h0 : Matrix.Shape r c res0) :
    forLoop r body res0 = some (Matrix.ofFn r c (fun i j => g i j (res0.entry i j))) := by
  obtain ⟨t, ht, hs, he⟩ := forLoop_inv
    (fun i res => Matrix.Shape r c res ∧ ∀ i' j', i' < r → j' < c →
      res.entry i' j' = if i' < i then g i' j' (res0.entry i' j') else res0.entry i' j')
    r body res0 ⟨h0, by intro i' j' _ _; simp⟩
    (by
      intro i res hi ⟨hs, he⟩
      refine ⟨_, hbody i res hi hs, Matrix.shape_ofFn r c _, ?_⟩
      intro i' j' hi' hj'
      rw [Matrix.entry_ofFn _ hi' hj', he i' j' hi' hj', he i j' hi hj']
      by_cases h1 : i' = i
      · subst h1; simp
      · have h3 : i' < i + 1 ↔ i' < i := by omega
        simp [h1, h3])
  rw [ht]
  congr 1
  apply Matrix.ext_of_shape hs (Matrix.shape_ofFn r c _)
  intro i' j' hi' hj'
  rw [he i' j' hi' hj', Matrix.entry_ofFn _ hi' hj']
  simp [hi']

/-! ## The matrix primitives on operands of matching shape -/

theorem matrixScalarMultiply_eq {r c : Nat} (a : Ref) (ha : a.Shape r c) (scalar : ℚ)
    (res0 : Matrix) (h0 : Matrix.Shape r c res0) :
    matrixScalarMultiply a scalar res0 = some (Matrix.ofFn r c (fun i j =>
      (a.read res0).entry i j * scalar)) := by
  have hlen : (a.read res0).length = r := (Ref.shape_read ha h0).1
  rw [matrixScalarMultiply, hlen]
  rw [gridLoop_eq _ (fun i j x => a.pick i j x * scalar) _ res0 h0]
  · simp only [Ref.entry_read]
  · intro i res hi hs
    have hc : (a.read res).cols0 = some c :=
      Matrix.cols0_eq (Ref.shape_read ha hs) (Nat.lt_of_le_of_lt (Nat.zero_le i) hi)
    simp only [hc, Option.bind_eq_bind, Option.some_bind]
    apply rowLoop_eq _ (fun j x => a.pick i j x * scalar) hi _ res hs
    intro j res' hj hs'
    rw [Matrix.rd_eq (Ref.shape_read ha hs') hi hj]
    simp only [Option.some_bind, Ref.entry_read]
    exact Matrix.wr_eq hs' hi hj _

theorem matrixSubtract_eq {r c : Nat} (a b : Ref) (ha : a.Shape r c) (hb : b.Shape r c)
    (res0 : Matrix) (h0 : Matrix.Shape r c res0) :
    matrixSubtract a b res0 = some (Matrix.ofFn r c (fun i j =>
      (a.read res0).entry i j - (b.read res0).entry i j)) := by
  have hlen : (a.read res0).length = r := (Ref.shape_read ha h0).1
  rw [matrixSubtract, hlen]
  rw [gridLoop_eq _ (fun i j x => a.pick i j x - b.pick i j x) _ res0 h0]
  · simp only [Ref.entry_read]
  · intro i res hi hs
    have hc : (a.read res).cols0 = some c :=
      Matrix.cols0_eq (Ref.shape_read ha hs) (Nat.lt_of_le_of_lt (Nat.zero_le i) hi)
    simp only [hc, Option.bind_eq_bind, Option.some_bind]
    apply rowLoop_eq _ (fun j x => a.pick i j x - b.pick i j x) hi _ res hs
    intro j res' hj hs'
    rw [Matrix.rd_eq (Ref.shape_read ha hs') hi hj, Matrix.rd_eq (Ref.shape_read hb hs') hi hj]
    simp only [Option.some_bind, Ref.entry_read]
    exact Matrix.wr_eq hs' hi hj _

theorem matrixAdd_eq {r c : Nat} (a b : Ref) (ha : a.Shape r c) (hb : b.Shape r c)
    (res0 : Matrix) (h0 : Matrix.Shape r c res0) :
    matrixAdd a b res0 = some (Matrix.ofFn r c (fun i j =>
      (a.read res0).entry i j + (b.read res0).entry i j)) := by
  have hlen : (a.read res0).length = r := (Ref.shape_read ha h0).1
  rw [matrixAdd, hlen]
  rw [gridLoop_eq _ (fun i j x => a.pick i j x + b.pick i j x) _ res0 h0]
  · simp only [Ref.entry_read]
  · intro i res hi hs
    have hc : (a.read res).cols0 = some c :=
      Matrix.cols0_eq (Ref.shape_read ha hs) (Nat.lt_of_le_of_lt (Nat.zero_le i) hi)
    simp only [hc, Option.bind_eq_bind, Option.some_bind]
    apply rowLoop_eq _ (fun j x => a.pick i j x + b.pick i j x) hi _ res hs
    intro j res' hj hs'
    rw [Matrix.rd_eq (Ref.shape_read ha hs') hi hj, Matrix.rd_eq (Ref.shape_read hb hs') hi hj]
    simp only [Option.some_bind, Ref.entry_read]
    exact Matrix.wr_eq hs' hi hj _

/-- The innermost loop of `matrixMultiply` adds the dot product of row `i` of the first operand
and column `j` of the second to cell `(i, j)` of the buffer. -/
theorem dotLoop_eq {r m c : Nat} {A B : Matrix} (hA : Matrix.Shape r m A)
    (hB : Matrix.Shape m c B) {i j : Nat} (hi : i < r) (hj : j < c) (n : Nat) (hn : n ≤ m)
    (res : Matrix) (hs : Matrix.Shape r c res) :
    forLoop n (fun k res => do
        let x ← res.rd i j
        let a ← ((Ref.val A).read res).rd i k
        let b ← ((Ref.val B).read res).rd k j
        res.wr i j (x + a * b)) res
      = some (res.upd i j (res.entry i j + ∑ k ∈ Finset.range n, A.entry i k * B.entry k j)) := by
  induction n with
  | zero => simp [forLoop, Matrix.upd_entry hs hi hj]
  | succ n ih =>
    have hn' : n < m := hn
    rw [forLoop_succ, ih (Nat.le_of_lt hn')]
    simp only [Option.some_bind, Ref.read, Option.bind_eq_bind]
    rw [Matrix.rd_eq (hs.upd _ _ _) hi hj, Matrix.rd_eq hA hi hn', Matrix.rd_eq hB hn' hj]
    simp only [Option.some_bind]
    rw [Matrix.wr_eq (hs.upd _ _ _) hi hj, Matrix.upd_upd hs hi hj, Matrix.entry_upd hs hi hj]
    simp [Finset.sum_range_succ, add_assoc]

/-- On operands of its own of shapes `r × m` and `m × c` (`m ≥ 1`), `matrixMultiply` adds the
matrix product to the prior contents of the `r × c` buffer. -/
theorem matrixMultiply_eq {r m c : Nat} {A B : Matrix} (hA : Matrix.Shape r m A)
    (hB : Matrix.Shape m c B) (hm : 0 < m) (res0 : Matrix) (h0 : Matrix.Shape r c res0) :
    matrixMultiply (Ref.val A) (Ref.val B) res0 = some (Matrix.ofFn r c (fun i j =>
      res0.entry i j + ∑ k ∈ Finset.range m, A.entry i k * B.entry k j)) := by
  rw [matrixMultiply]
  simp only [Ref.read, hA.1, hB.1, Matrix.cols0_eq hB hm, Option.bind_eq_bind,
    Option.some_bind]
  apply gridLoop_eq _ (fun i j x => x + ∑ k ∈ Finset.range m, A.entry i k * B.entry k j) _
    res0 h0
  intro i res hi hs
  apply rowLoop_eq _ (fun j x => x + ∑ k ∈ Finset.range m, A.entry i k * B.entry k j) hi _
    res hs
  intro j res' hj hs'
  exact dotLoop_eq hA hB hi hj m (Nat.le_refl m) res' hs'

theorem Matrix.ofFn_congr {r c : Nat} {f g : Nat → Nat → ℚ}
    (h : ∀ i j, i < r → j < c → f i j = g i j) : Matrix.ofFn r c f = Matrix.ofFn r c g := by
  apply Matrix.ext_of_shape (Matrix.shape_ofFn r c f) (Matrix.shape_ofFn r c g)
  intro i j hi hj
  rw [Matrix.entry_ofFn _ hi hj, Matrix.entry_ofFn _ hi hj, h i j hi hj]

/-! ## The gradient -/

/-- What `getGradientND` computes on a `d × d` sigma and `d × 1` c and theta: the factor is
one over the row count of `sigma`, that is `1 / d`. -/
theorem getGradientND_eq {d : Nat} (hd : 0 < d) {sigma c theta : Matrix}
    (hsig : Matrix.Shape d d sigma) (hc : Matrix.Shape d 1 c) (hth : Matrix.Shape d 1 theta)
    (lambda : ℚ) :
    getGradientND sigma c theta lambda = some (Matrix.ofFn d 1 (fun i _ =>
      (1 / (d : ℚ)) * ((∑ k ∈ Finset.range d, sigma.entry i k * theta.entry k 0) - c.entry i 0)
        + lambda * theta.entry i 0)) := by
  rw [getGradientND]
  simp only [Matrix.cols0_eq hsig hd, Option.bind_eq_bind, Option.some_bind, hsig.1]
  rw [matrixMultiply_eq hsig hth hd _ (Matrix.shape_fill d 1 0)]
  simp only [Option.some_bind]
  rw [matrixSubtract_eq Ref.out (Ref.val c) trivial hc _ (Matrix.shape_ofFn d 1 _)]
  simp only [Option.some_bind]
  rw [matrixScalarMultiply_eq Ref.out trivial _ _ (Matrix.shape_ofFn d 1 _)]
  simp only [Option.some_bind]
  rw [matrixScalarMultiply_eq (Ref.val theta) hth _ _ (Matrix.shape_fill d 1 0)]
  simp only [Option.some_bind]
  rw [matrixAdd_eq Ref.out (Ref.val (Matrix.ofFn d 1 _)) trivial (Matrix.shape_ofFn d 1 _) _
    (Matrix.shape_ofFn d 1 _)]
  simp only [pure, Option.some_bind, Option.some.injEq, Ref.read]
  apply Matrix.ofFn_congr
  intro i j hi hj
  have hj0 : j = 0 := by omega
  subst hj0
  simp only [Matrix.entry_ofFn _ hi hj, Matrix.entry_fill _ hi hj]
  ring

/-! ## The accumulation pass -/

/-- The innermost loop of the accumulation pass adds `X[k][i] * X[k][j]` to every cell
`(i, j)` of row `i` of sigma and leaves `c` alone. -/
theorem sigmaRow_eq {d : Nat} (step : Nat → Matrix × Matrix → Option (Matrix × Matrix))
    (x : Nat → ℚ) {i : Nat} (hi : i < d)
    (hstep : ∀ j st, j < d → Matrix.Shape d d st.1 →
      step j st = some (st.1.upd i j (st.1.entry i j + x j), st.2))
    (st : Matrix × Matrix) (hs : Matrix.Shape d d st.1) :
    ∃ t, forLoop d step st = some t ∧ t.2 = st.2 ∧ Matrix.Shape d d t.1 ∧
      ∀ i' j', i' < d → j' < d → t.1.entry i' j' =
        if i' = i then st.1.entry i j' + x j' else st.1.entry i' j' := by
  obtain ⟨t, ht, h2, hs', he⟩ := forLoop_inv
    (fun j t => t.2 = st.2 ∧ Matrix.Shape d d t.1 ∧ ∀ i' j', i' < d → j' < d →
      t.1.entry i' j' = if i' = i ∧ j' < j then st.1.entry i j' + x j' else st.1.entry i' j')
    d step st ⟨rfl, hs, by intro i' j' _ _; simp⟩
    (by
      intro j t hj ⟨h2, hs', he⟩
      refine ⟨_, hstep j t hj hs', h2, hs'.upd _ _ _, ?_⟩
      intro i' j' hi' hj'
      rw [Matrix.entry_upd hs' hi hj, he i' j' hi' hj', he i j hi hj]
      by_cases h1 : i' = i
      · by_cases h3 : j' = j
        · subst h1; subst h3; simp
        · have h4 : j' < j + 1 ↔ j' < j := by omega
          simp [h1, h3, h4]
      · simp [h1])
  refine ⟨t, ht, h2, hs', ?_⟩
  intro i' j' hi' hj'
  rw [he i' j' hi' hj']
  simp [hj']

/-- The loop over the observations, for a fixed feature index `i`, adds column `i`'s products
with every column to row `i` of sigma and its product with the labels to `c[i][0]`. -/
theorem obsLoop_eq {n d : Nat} {X y : Matrix} (hX : Matrix.Shape n d X)
    (hy : Matrix.Shape n 1 y) {i : Nat} (hi : i < d) (st : Matrix × Matrix)
    (hs : Matrix.Shape d d st.1) (hc : Matrix.Shape d 1 st.2) :
    ∃ t, forLoop n (fun k st => do
        let x ← X.rd k i
        let y0 ← y.rd k 0
        let c0 ← st.2.rd i 0
        let c1 ← st.2.wr i 0 (c0 + x * y0)
        forLoop d (fun j st => do
          let s0 ← st.1.rd i j
          let xi ← X.rd k i
          let xj ← X.rd k j
          let s1 ← st.1.wr i j (s0 + xi * xj)
          pure (s1, st.2)) (st.1, c1)) st = some t ∧
      Matrix.Shape d d t.1 ∧ Matrix.Shape d 1 t.2 ∧
      (∀ i' j', i' < d → j' < d → t.1.entry i' j' =
        if i' = i then st.1.entry i j' + ∑ k ∈ Finset.range n, X.entry k i * X.entry k j'
        else st.1.entry i' j') ∧
      (∀ i', i' < d → t.2.entry i' 0 =
        if i' = i then st.2.entry i 0 + ∑ k ∈ Finset.range n, X.entry k i * y.entry k 0
        else st.2.entry i' 0) := by
  have h01 : (0 : Nat) < 1 := Nat.one_pos
  apply forLoop_inv
    (fun m t => Matrix.Shape d d t.1 ∧ Matrix.Shape d 1 t.2 ∧
      (∀ i' j', i' < d → j' < d → t.1.entry i' j' =
        if i' = i then st.1.entry i j' + ∑ k ∈ Finset.range m, X.entry k i * X.entry k j'
        else st.1.entry i' j') ∧
      (∀ i', i' < d → t.2.entry i' 0 =
        if i' = i then st.2.entry i 0 + ∑ k ∈ Finset.range m, X.entry k i * y.entry k 0
        else st.2.entry i' 0))
    n _ st ⟨hs, hc, by intro i' j' _ _; split <;> simp_all,
      by intro i' _; split <;> simp_all⟩
  intro k t hk ⟨hs', hc', he, hce⟩
  obtain ⟨u, hu, hu2, hus, hue⟩ := sigmaRow_eq
    (fun j (st : Matrix × Matrix) => do
      let s0 ← st.1.rd i j
      let xi ← X.rd k i
      let xj ← X.rd k j
      let s1 ← st.1.wr i j (s0 + xi * xj)
      pure (s1, st.2))
    (fun j => X.entry k i * X.entry k j) hi
    (by
      intro j st' hj hst'
      simp [Matrix.rd_eq hst' hi hj, Matrix.rd_eq hX hk hi, Matrix.rd_eq hX hk hj,
        Matrix.wr_eq hst' hi hj])
    (t.1, t.2.upd i 0 (t.2.entry i 0 + X.entry k i * y.entry k 0)) hs'
  refine ⟨u, ?_, hus, ?_, ?_, ?_⟩
  · rw [← hu]
    simp only [Matrix.rd_eq hX hk hi, Matrix.rd_eq hy hk h01, Matrix.rd_eq hc' hi h01,
      Matrix.wr_eq hc' hi h01, Option.bind_eq_bind, Option.some_bind]
  · rw [hu2]; exact hc'.upd _ _ _
  · intro i' j' hi' hj'
    rw [hue i' j' hi' hj']
    simp only []
    rw [he i' j' hi' hj', he i j' hi hj']
    by_cases h1 : i' = i
    · simp [h1, Finset.sum_range_succ, add_assoc]
    · simp [h1]
  · intro i' hi'
    rw [hu2]
    simp only []
    rw [Matrix.entry_upd hc' hi h01, hce i' hi', hce i hi]
    by_cases h1 : i' = i
    · simp [h1, Finset.sum_range_succ, add_assoc]
    · simp [h1]

/-- The accumulation pass of `linearRegressionND` on an `n × d` feature matrix and `n × 1`
label matrix (`n, d ≥ 1`) returns `Xᵀ X` and `Xᵀ y`. -/
theorem accumulateND_eq {n d : Nat} (hn : 0 < n) {X y : Matrix}
    (hX : Matrix.Shape n d X) (hy : Matrix.Shape n 1 y) :
    accumulateND X y = some
      (Matrix.ofFn d d (fun i j => ∑ k ∈ Finset.range n, X.entry k i * X.entry k j),
       Matrix.ofFn d 1 (fun i _ => ∑ k ∈ Finset.range n, X.entry k i * y.entry k 0)) := by
  rw [accumulateND]
  simp only [Matrix.cols0_eq hX hn, hX.1, Option.bind_eq_bind, Option.some_bind]
  obtain ⟨t, ht, hs, hc, he, hce⟩ := forLoop_inv
    (fun m (t : Matrix × Matrix) => Matrix.Shape d d t.1 ∧ Matrix.Shape d 1 t.2 ∧
      (∀ i' j', i' < d → j' < d → t.1.entry i' j' =
        if i' < m then ∑ k ∈ Finset.range n, X.entry k i' * X.entry k j' else 0) ∧
      (∀ i', i' < d → t.2.entry i' 0 =
        if i' < m then ∑ k ∈ Finset.range n, X.entry k i' * y.entry k 0 else 0))
    d _ (Matrix.fill d d 0, Matrix.fill d 1 0)
    ⟨Matrix.shape_fill d d 0, Matrix.shape_fill d 1 0,
      by intro i' j' hi' hj'; simp [Matrix.entry_fill 0 hi' hj'],
      by intro i' hi'; simp [Matrix.entry_fill 0 hi' Nat.one_pos]⟩
    (by
      intro i t hi ⟨hs, hc, he, hce⟩
      obtain ⟨u, hu, hus, huc, hue, huce⟩ := obsLoop_eq hX hy hi t hs hc
      refine ⟨u, hu, hus, huc, ?_, ?_⟩
      · intro i' j' hi' hj'
        rw [hue i' j' hi' hj', he i' j' hi' hj', he i j' hi hj']
        by_cases h1 : i' = i
        · subst h1; simp
        · have h3 : i' < i + 1 ↔ i' < i := by omega
          simp [h1, h3]
      · intro i' hi'
        rw [huce i' hi', hce i' hi', hce i hi]
        by_cases h1 : i' = i
        · subst h1; simp
        · have h3 : i' < i + 1 ↔ i' < i := by omega
          simp [h1, h3])
  have htEq : t = (Matrix.ofFn d d (fun i j => ∑ k ∈ Finset.range n, X.entry k i * X.entry k j),
      Matrix.ofFn d 1 (fun i _ => ∑ k ∈ Finset.range n, X.entry k i * y.entry k 0)) := ?_
  · rw [htEq] at ht; exact ht
  apply Prod.ext
  · apply Matrix.ext_of_shape hs (Matrix.shape_ofFn d d _)
    intro i j hi hj
    rw [he i j hi hj, Matrix.entry_ofFn _ hi hj]
    simp [hi]
  · apply Matrix.ext_of_shape hc (Matrix.shape_ofFn d 1 _)
    intro i j hi hj
    have hj0 : j = 0 := by omega
    subst hj0
    rw [hce i hi, Matrix.entry_ofFn _ hi hj]
    simp [hi]

/-! ## The descent loop -/

/-- One iteration of the general form on a `d × 1` theta. -/
theorem descentStepND_eq {d : Nat} (hd : 0 < d) {sigma c theta : Matrix}
    (hsig : Matrix.Shape d d sigma) (hc : Matrix.Shape d 1 c) (hth : Matrix.Shape d 1 theta)
    (alpha lambda : ℚ) :
    descentStepND sigma c alpha lambda theta = some (Matrix.ofFn d 1 (fun i _ =>
      theta.entry i 0 - alpha * ((1 / (d : ℚ)) *
        ((∑ k ∈ Finset.range d, sigma.entry i k * theta.entry k 0) - c.entry i 0)
          + lambda * theta.entry i 0))) := by
  rw [descentStepND, getGradientND_eq hd hsig hc hth]
  simp only [Option.bind_eq_bind, Option.some_bind]
  rw [matrixScalarMultiply_eq Ref.out trivial _ _ (Matrix.shape_ofFn d 1 _)]
  simp only [Option.some_bind]
  rw [matrixSubtract_eq Ref.out (Ref.val (Matrix.ofFn d 1 _)) trivial (Matrix.shape_ofFn d 1 _) _
    hth]
  simp only [Option.some.injEq, Ref.read]
  apply Matrix.ofFn_congr
  intro i j hi hj
  have hj0 : j = 0 := by omega
  subst hj0
  simp only [Matrix.entry_ofFn _ hi hj]
  ring

/-- The descent loop of the general form always returns, with a `d × 1` theta. -/
theorem descentLoopND_shape {d : Nat} (hd : 0 < d) {sigma c : Matrix}
    (hsig : Matrix.Shape d d sigma) (hc : Matrix.Shape d 1 c) (alpha lambda : ℚ)
    (theta0 : Matrix) (h0 : Matrix.Shape d 1 theta0) (k : Nat) :
    ∃ theta, forLoop k (fun _ theta => descentStepND sigma c alpha lambda theta) theta0
      = some theta ∧ Matrix.Shape d 1 theta := by
  apply forLoop_inv (fun _ theta => Matrix.Shape d 1 theta) k _ theta0 h0
  intro i t _ ht
  exact ⟨_, descentStepND_eq hd hsig hc ht alpha lambda, Matrix.shape_ofFn d 1 _⟩

/-- On a valid dataset `linearRegressionND` is its descent loop run from the all-ones theta
on the statistics of the accumulation pass. -/
theorem linearRegressionND_eq {n d : Nat} (hn : 0 < n) {X y : Matrix}
    (hX : Matrix.Shape n d X) (hy : Matrix.Shape n 1 y) (alpha lambda : ℚ) (iter : Nat) :
    linearRegressionND X y alpha lambda iter =
      forLoop iter (fun _ theta => descentStepND
        (Matrix.ofFn d d (fun i j => ∑ k ∈ Finset.range n, X.entry k i * X.entry k j))
        (Matrix.ofFn d 1 (fun i _ => ∑ k ∈ Finset.range n, X.entry k i * y.entry k 0))
        alpha lambda theta) (Matrix.fill d 1 1) := by
  rw [linearRegressionND, Matrix.cols0_eq hX hn, accumulateND_eq hn hX hy]
  rfl

/-! ## The scalar form -/

theorem forLoop_some {σ : Type} (f : σ → σ) (k : Nat) (s : σ) :
    forLoop k (fun _ t => some (f t)) s = some (f^[k] s) := by
  induction k with
  | zero => rfl
  | succ k ih => rw [forLoop_succ, ih, Function.iterate_succ_apply']; rfl

theorem wrapInt32_eq {x : ℤ} (h1 : -2147483648 ≤ x) (h2 : x < 2147483648) :
    wrapInt32 x = x := by
  unfold wrapInt32
  omega

/-- On equally long lists the accumulation loop of the scalar form returns. -/
theorem accumulate1D_total (features labels : List ℤ) (h : features.length = labels.length) :
    ∃ Sigma C, accumulate1D features labels = some (Sigma, C) := by
  obtain ⟨t, ht, _⟩ := forLoop_inv (fun _ (_ : ℤ × ℤ) => True) features.length
    (fun i st => do
      let x ← features[i]?
      let y ← labels[i]?
      pure (wrapInt32 (st.1 + wrapInt32 (x * x)), wrapInt32 (st.2 + wrapInt32 (x * y))))
    (0, 0) trivial
    (by
      intro i t hi _
      have hi' : i < labels.length := by rw [← h]; exact hi
      exact ⟨(wrapInt32 (t.1 + wrapInt32 (features[i] * features[i])),
        wrapInt32 (t.2 + wrapInt32 (features[i] * labels[i]))),
        by simp [List.getElem?_eq_getElem hi, List.getElem?_eq_getElem hi'], trivial⟩)
  exact ⟨t.1, t.2, ht⟩

/-- Once the accumulation loop has returned `(Sigma, C)`, `linearRegression1D` is its
descent step iterated from `theta = 1`. -/
theorem linearRegression1D_of_acc {features labels : List ℤ} {Sigma C : ℤ}
    (hacc : accumulate1D features labels = some (Sigma, C)) (alpha lambda : ℚ) (iter : Nat) :
    linearRegression1D features labels alpha lambda iter = some
      ((descentStep1D features.length Sigma C alpha lambda)^[iter] 1) := by
  rw [linearRegression1D, hacc]
  exact forLoop_some _ iter 1

/-- When the sum of squared features and the sum of absolute feature-label products stay
below `2^31`, no `int` operation of the accumulation loop wraps, and the loop returns the sum
of squared features and the sum of feature-label products. -/
theorem accumulate1D_eq (features labels : List ℤ) (h : features.length = labels.length)
    (hS : ∑ i ∈ Finset.range features.length, features.getD i 0 * features.getD i 0
      < 2147483648)
    (hC : ∑ i ∈ Finset.range features.length, |features.getD i 0 * labels.getD i 0|
      < 2147483648) :
    accumulate1D features labels = some
      (∑ i ∈ Finset.range features.length, features.getD i 0 * features.getD i 0,
       ∑ i ∈ Finset.range features.length, features.getD i 0 * labels.getD i 0) := by
  obtain ⟨t, ht, he⟩ := forLoop_inv
    (fun m (t : ℤ × ℤ) => t = (∑ i ∈ Finset.range m, features.getD i 0 * features.getD i 0,
      ∑ i ∈ Finset.range m, features.getD i 0 * labels.getD i 0))
    features.length
    (fun i st => do
      let x ← features[i]?
      let y ← labels[i]?
      pure (wrapInt32 (st.1 + wrapInt32 (x * x)), wrapInt32 (st.2 + wrapInt32 (x * y))))
    (0, 0) (by simp)
    (by
      intro i t hi ht
      have hi' : i < labels.length := by rw [← h]; exact hi
      subst ht
      have hx : features[i] = features.getD i 0 := by
        simp [List.getD_eq_getElem?_getD, List.getElem?_eq_getElem hi]
      have hy : labels[i] = labels.getD i 0 := by
        simp [List.getD_eq_getElem?_getD, List.getElem?_eq_getElem hi']
      refine ⟨(wrapInt32 (∑ j ∈ Finset.range i, features.getD j 0 * features.getD j 0
          + wrapInt32 (features.getD i 0 * features.getD i 0)),
        wrapInt32 (∑ j ∈ Finset.range i, features.getD j 0 * labels.getD j 0
          + wrapInt32 (features.getD i 0 * labels.getD i 0))), ?_, ?_⟩
      · rw [← hx, ← hy]
        simp only [List.getElem?_eq_getElem hi, List.getElem?_eq_getElem hi',
          Option.bind_eq_bind, Option.some_bind]
        rfl
      show (_, _) = (_, _)
      have hsub : Finset.range (i + 1) ⊆ Finset.range features.length :=
        Finset.range_subset.mpr hi
      have hmem : i ∈ Finset.range features.length := Finset.mem_range.mpr hi
      -- the squares
      have hsq0 : 0 ≤ features.getD i 0 * features.getD i 0 := mul_self_nonneg _
      have hsq1 : features.getD i 0 * features.getD i 0
          ≤ ∑ j ∈ Finset.range features.length, features.getD j 0 * features.getD j 0 :=
        Finset.single_le_sum (f := fun j => features.getD j 0 * features.getD j 0)
          (fun j _ => mul_self_nonneg _) hmem
      have hS0 : 0 ≤ ∑ j ∈ Finset.range (i + 1), features.getD j 0 * features.getD j 0 :=
        Finset.sum_nonneg (fun j _ => mul_self_nonneg _)
      have hS1 : ∑ j ∈ Finset.range (i + 1), features.getD j 0 * features.getD j 0
          ≤ ∑ j ∈ Finset.range features.length, features.getD j 0 * features.getD j 0 :=
        Finset.sum_le_sum_of_subset_of_nonneg hsub (fun j _ _ => mul_self_nonneg _)
      -- the products
      have hp1 : |features.getD i 0 * labels.getD i 0|
          ≤ ∑ j ∈ Finset.range features.length, |features.getD j 0 * labels.getD j 0| :=
        Finset.single_le_sum (f := fun j => |features.getD j 0 * labels.getD j 0|)
          (fun j _ => abs_nonneg _) hmem
      have hC1 : |∑ j ∈ Finset.range (i + 1), features.getD j 0 * labels.getD j 0|
          ≤ ∑ j ∈ Finset.range features.length, |features.getD j 0 * labels.getD j 0| :=
        le_trans (Finset.abs_sum_le_sum_abs _ _)
          (Finset.sum_le_sum_of_subset_of_nonneg hsub (fun j _ _ => abs_nonneg _))
      have hp1' := abs_le.mp hp1
      have hC1' := abs_le.mp hC1
      have e1 : wrapInt32 (features.getD i 0 * features.getD i 0)
          = features.getD i 0 * features.getD i 0 :=
        wrapInt32_eq (by linarith) (by linarith)
      have e2 : wrapInt32 (features.getD i 0 * labels.getD i 0)
          = features.getD i 0 * labels.getD i 0 :=
        wrapInt32_eq (by linarith) (by linarith)
      rw [e1, e2, ← Finset.sum_range_succ (fun j => features.getD j 0 * features.getD j 0) i,
        ← Finset.sum_range_succ (fun j => features.getD j 0 * labels.getD j 0) i]
      have e3 : wrapInt32 (∑ j ∈ Finset.range (i + 1), features.getD j 0 * features.getD j 0)
          = ∑ j ∈ Finset.range (i + 1), features.getD j 0 * features.getD j 0 :=
        wrapInt32_eq (by linarith) (by linarith)
      have e4 : wrapInt32 (∑ j ∈ Finset.range (i + 1), features.getD j 0 * labels.getD j 0)
          = ∑ j ∈ Finset.range (i + 1), features.getD j 0 * labels.getD j 0 :=
        wrapInt32_eq (by linarith) (by linarith)
      rw [e3, e4])
  rw [he] at ht
  exact ht

/-- When no `int` operation of the accumulation wraps, `linearRegression1D` is its descent
step iterated from `theta = 1` on the sum of squared features and the sum of feature-label
products. -/
theorem linearRegression1D_eq (features labels : List ℤ) (h : features.length = labels.length)
    (hS : ∑ i ∈ Finset.range features.length, features.getD i 0 * features.getD i 0
      < 2147483648)
    (hC : ∑ i ∈ Finset.range features.length, |features.getD i 0 * labels.getD i 0|
      < 2147483648)
    (alpha lambda : ℚ) (iter : Nat) :
    linearRegression1D features labels alpha lambda iter = some
      ((descentStep1D features.length
        (∑ i ∈ Finset.range features.length, features.getD i 0 * features.getD i 0)
        (∑ i ∈ Finset.range features.length, features.getD i 0 * labels.getD i 0)
        alpha lambda)^[iter] 1) :=
  linearRegression1D_of_acc (accumulate1D_eq features labels h hS hC) alpha lambda iter

/-- On the data of the authors' first test the distance of theta to `-3` shrinks by the
factor `89/100` at every iteration. -/
theorem descentStep1D_test1 (k : Nat) :
    (descentStep1D 5 55 (-165) (1 / 100) 0)^[k] 1 = -3 + 4 * (89 / 100 : ℚ) ^ k := by
  induction k with
  | zero => norm_num
  | succ k ih =>
    rw [Function.iterate_succ_apply', ih]
    simp only [descentStep1D, getGradient1D]
    push_cast
    ring

theorem Matrix.shape_append {n1 n2 c : Nat} {A B : Matrix} (hA : Matrix.Shape n1 c A)
    (hB : Matrix.Shape n2 c B) : Matrix.Shape (n1 + n2) c (A ++ B) := by
  refine ⟨by simp [hA.1, hB.1], ?_⟩
  intro row hrow
  rcases List.mem_append.mp hrow with h | h
  · exact hA.2 _ h
  · exact hB.2 _ h

theorem Matrix.entry_append_left {n1 : Nat} {A : Matrix} (hA : A.length = n1) (B : Matrix)
    {k : Nat} (hk : k < n1) (j : Nat) : (A ++ B).entry k j = A.entry k j := by
  have hk' : k < A.length := by rw [hA]; exact hk
  simp [Matrix.entry, List.getD_eq_getElem?_getD, List.getElem?_append_left hk']

theorem Matrix.entry_append_right {n1 : Nat} {A : Matrix} (hA : A.length = n1) (B : Matrix)
    (k j : Nat) : (A ++ B).entry (n1 + k) j = B.entry k j := by
  have hk' : A.length ≤ n1 + k := by rw [hA]; exact Nat.le_add_right n1 k
  simp [Matrix.entry, List.getD_eq_getElem?_getD, List.getElem?_append_right hk', hA]

/-- A sum over the rows of a row-wise concatenation splits into the sums over the parts. -/
theorem sum_rows_append {n1 n2 : Nat} {A B A' B' : Matrix} (hA : A.length = n1)
    (hA' : A'.length = n1) (i j : Nat) :
    ∑ k ∈ Finset.range (n1 + n2), (A ++ B).entry k i * (A' ++ B').entry k j =
      ∑ k ∈ Finset.range n1, A.entry k i * A'.entry k j
        + ∑ k ∈ Finset.range n2, B.entry k i * B'.entry k j := by
  rw [Finset.sum_range_add]
  congr 1
  · apply Finset.sum_congr rfl
    intro k hk
    have hk' : k < n1 := Finset.mem_range.mp hk
    rw [Matrix.entry_append_left hA B hk', Matrix.entry_append_left hA' B' hk']
  · apply Finset.sum_congr rfl
    intro k _
    rw [Matrix.entry_append_right hA B, Matrix.entry_append_right hA' B']

theorem sum_getD_squares (features : List ℤ) :
    ∑ i ∈ Finset.range features.length, features.getD i 0 * features.getD i 0
      = sumSquares features := by
  induction features with
  | nil => simp [sumSquares]
  | cons x xs ih =>
    rw [List.length_cons, Finset.sum_range_succ']
    simp only [List.getD_cons_succ, List.getD_cons_zero]
    rw [ih]
    simp [sumSquares, add_comm]

theorem sum_getD_products (features labels : List ℤ)
    (h : features.length = labels.length) :
    ∑ i ∈ Finset.range features.length, features.getD i 0 * labels.getD i 0
      = sumProducts features labels := by
  induction features generalizing labels with
  | nil => simp [sumProducts]
  | cons x xs ih =>
    cases labels with
    | nil => simp at h
    | cons y ys =>
      have h' : xs.length = ys.length := by simpa using h
      rw [List.length_cons, Finset.sum_range_succ']
      simp only [List.getD_cons_succ, List.getD_cons_zero]
      rw [ih ys h']
      simp [sumProducts, add_comm]

theorem sum_getD_absProducts (features labels : List ℤ)
    (h : features.length = labels.length) :
    ∑ i ∈ Finset.range features.length, |features.getD i 0 * labels.getD i 0|
      = sumAbsProducts features labels := by
  induction features generalizing labels with
  | nil => simp [sumAbsProducts]
  | cons x xs ih =>
    cases labels with
    | nil => simp at h
    | cons y ys =>
      have h' : xs.length = ys.length := by simpa using h
      rw [List.length_cons, Finset.sum_range_succ']
      simp only [List.getD_cons_succ, List.getD_cons_zero]
      rw [ih ys h']
      simp [sumAbsProducts, add_comm]

/-- When the sum of squared features and the sum of absolute feature-label products are
below `2^31`, the accumulation loop of the scalar form returns the two list sums. -/
theorem accumulate1D_sums (features labels : List ℤ) (h : features.length = labels.length)
    (hS : sumSquares features < 2147483648)
    (hC : sumAbsProducts features labels < 2147483648) :
    accumulate1D features labels = some (sumSquares features, sumProducts features labels) := by
  rw [← sum_getD_squares] at hS
  rw [← sum_getD_absProducts features labels h] at hC
  rw [accumulate1D_eq features labels h hS hC, sum_getD_squares,
    sum_getD_products features labels h]

/-- Under the same bounds `linearRegression1D` iterates its descent step on the list sums. -/
theorem linearRegression1D_sums (features labels : List ℤ)
    (h : features.length = labels.length) (hS : sumSquares features < 2147483648)
    (hC : sumAbsProducts features labels < 2147483648) (alpha lambda : ℚ) (iter : Nat) :
    linearRegression1D features labels alpha lambda iter = some
      ((descentStep1D features.length (sumSquares features) (sumProducts features labels)
        alpha lambda)^[iter] 1) :=
  linearRegression1D_of_acc (accumulate1D_sums features labels h hS hC) alpha lambda iter

/-! ## `matrixMultiply` when the second operand has fewer rows than the first has columns -/

/-- The innermost loop of `matrixMultiply` when `B` has `p ≤ m` rows: only the first `p`
entries of row `i` of `A` are read. -/
theorem dotLoop_narrow {r m p c : Nat} {A B : Matrix} (hA : Matrix.Shape r m A)
    (hB : Matrix.Shape p c B) (hpm : p ≤ m) {i j : Nat} (hi : i < r) (hj : j < c) (n : Nat)
    (hn : n ≤ p) (res : Matrix) (hs : Matrix.Shape r c res) :
    forLoop n (fun k res => do
        let x ← res.rd i j
        let a ← ((Ref.val A).read res).rd i k
        let b ← ((Ref.val B).read res).rd k j
        res.wr i j (x + a * b)) res
      = some (res.upd i j (res.entry i j + ∑ k ∈ Finset.range n, A.entry i k * B.entry k j)) := by
  induction n with
  | zero => simp [forLoop, Matrix.upd_entry hs hi hj]
  | succ n ih =>
    have hn' : n < p := hn
    have hnm : n < m := Nat.lt_of_lt_of_le hn' hpm
    rw [forLoop_succ, ih (Nat.le_of_lt hn')]
    simp only [Option.some_bind, Ref.read, Option.bind_eq_bind]
    rw [Matrix.rd_eq (hs.upd _ _ _) hi hj, Matrix.rd_eq hA hi hnm, Matrix.rd_eq hB hn' hj]
    simp only [Option.some_bind]
    rw [Matrix.wr_eq (hs.upd _ _ _) hi hj, Matrix.upd_upd hs hi hj, Matrix.entry_upd hs hi hj]
    simp [Finset.sum_range_succ, add_assoc]

/-- On an `r × m` first operand and a `p × c` second operand with `1 ≤ p ≤ m`,
`matrixMultiply` returns, and adds to the buffer the product of the first `p` columns of the
first operand with the second. -/
theorem matrixMultiply_narrow_eq {r m p c : Nat} {A B : Matrix} (hA : Matrix.Shape r m A)
    (hB : Matrix.Shape p c B) (hp : 0 < p) (hpm : p ≤ m) (res0 : Matrix)
    (h0 : Matrix.Shape r c res0) :
    matrixMultiply (Ref.val A) (Ref.val B) res0 = some (Matrix.ofFn r c (fun i j =>
      res0.entry i j + ∑ k ∈ Finset.range p, A.entry i k * B.entry k j)) := by
  rw [matrixMultiply]
  simp only [Ref.read, hA.1, hB.1, Matrix.cols0_eq hB hp, Option.bind_eq_bind,
    Option.some_bind]
  apply gridLoop_eq _ (fun i j x => x + ∑ k ∈ Finset.range p, A.entry i k * B.entry k j) _
    res0 h0
  intro i res hi hs
  apply rowLoop_eq _ (fun j x => x + ∑ k ∈ Finset.range p, A.entry i k * B.entry k j) hi _
    res hs
  intro j res' hj hs'
  exact dotLoop_narrow hA hB hpm hi hj p (Nat.le_refl p) res' hs'

/-! ## Fixed points and the closed form -/

/-- A theta that solves `sigma * theta = c` is left unchanged by one unregularized descent
step of the general form. -/
theorem descentStepND_fixed {d : Nat} (hd : 0 < d) {sigma c theta : Matrix}
    (hsig : Matrix.Shape d d sigma) (hc : Matrix.Shape d 1 c) (hth : Matrix.Shape d 1 theta)
    (hnormal : ∀ i, i < d →
      ∑ k ∈ Finset.range d, sigma.entry i k * theta.entry k 0 = c.entry i 0)
    (alpha : ℚ) : descentStepND sigma c alpha 0 theta = some theta := by
  rw [descentStepND_eq hd hsig hc hth]
  congr 1
  apply Matrix.ext_of_shape (Matrix.shape_ofFn d 1 _) hth
  intro i j hi hj
  have hj0 : j = 0 := by omega
  subst hj0
  rw [Matrix.entry_ofFn _ hi hj, hnormal i hi]
  ring

/-- When every label is the sum of its row of features, the all-ones theta solves the normal
equations of the accumulated statistics. -/
theorem ones_solve_normal {n d : Nat} {X y : Matrix}
    (hlabels : ∀ k, k < n → y.entry k 0 = ∑ j ∈ Finset.range d, X.entry k j)
    (i : Nat) (hi : i < d) :
    ∑ j ∈ Finset.range d,
        (Matrix.ofFn d d (fun i j => ∑ k ∈ Finset.range n, X.entry k i * X.entry k j)).entry i j
          * (Matrix.fill d 1 1).entry j 0
      = (Matrix.ofFn d 1 (fun i _ => ∑ k ∈ Finset.range n, X.entry k i * y.entry k 0)).entry
          i 0 := by
  rw [Matrix.entry_ofFn _ hi Nat.one_pos]
  have h1 : ∀ j ∈ Finset.range d,
      (Matrix.ofFn d d (fun i j => ∑ k ∈ Finset.range n, X.entry k i * X.entry k j)).entry i j
          * (Matrix.fill d 1 1).entry j 0
        = ∑ k ∈ Finset.range n, X.entry k i * X.entry k j := by
    intro j hj
    have hj' : j < d := Finset.mem_range.mp hj
    rw [Matrix.entry_ofFn _ hi hj', Matrix.entry_fill 1 hj' Nat.one_pos, mul_one]
  rw [Finset.sum_congr rfl h1, Finset.sum_comm]
  apply Finset.sum_congr rfl
  intro k hk
  rw [hlabels k (Finset.mem_range.mp hk), Finset.mul_sum]

/-- One step of the scalar form moves theta towards `C / (Sigma + lambda)` by the factor
`1 - alpha * (Sigma + lambda) / n`. -/
theorem descentStep1D_affine (n : Nat) (Sigma C : ℤ) (alpha lambda : ℚ)
    (hne : (Sigma : ℚ) + lambda ≠ 0) (u : ℚ) :
    descentStep1D n Sigma C alpha lambda ((C : ℚ) / ((Sigma : ℚ) + lambda) + u)
      = (C : ℚ) / ((Sigma : ℚ) + lambda)
        + (1 - alpha * ((Sigma : ℚ) + lambda) / (n : ℚ)) * u := by
  have ht : ((Sigma : ℚ) + lambda) * ((C : ℚ) / ((Sigma : ℚ) + lambda)) = (C : ℚ) :=
    mul_div_cancel₀ _ hne
  simp only [descentStep1D, getGradient1D]
  linear_combination (-alpha * (1 / (n : ℚ))) * ht

/-- C1 (code defect).  On the two-observation, one-feature dataset `X = [[1],[2]]`,
`y = [[1],[0]]` the accumulation pass gives `sigma = [[5]]`, `c = [[1]]`, and at the initial
`theta = [[1]]` with `lambda = 0` `getGradientND` returns `[[4]]`: it scales by one over the
row count of `sigma` (the feature count, here `1`), not by one over the number of
observations (here `2`), for which the entry would be `(1/2) * (5*1 - 1) + 0*1 = 2`. -/
theorem C1_gradient_scaled_by_sigma_rows :
    ∃ sigma c g, accumulateND [[1], [2]] [[1], [0]] = some (sigma, c) ∧
      getGradientND sigma c [[1]] 0 = some g ∧
      g = [[4]] ∧
      g.entry 0 0 ≠ (1 / ((2 : ℕ) : ℚ)) *
        ((∑ k ∈ Finset.range 1, sigma.entry 0 k * Matrix.entry [[1]] k 0) - c.entry 0 0)
          + 0 * Matrix.entry [[1]] 0 0 := by
  refine ⟨[[5]], [[1]], [[4]], ?_, ?_, rfl, ?_⟩
  · rw [accumulateND_eq (by decide : 0 < 2) (by decide : Matrix.Shape 2 1 [[1], [2]])
      (by decide : Matrix.Shape 2 1 [[1], [0]])]
    norm_num [Matrix.ofFn, Matrix.entry, Finset.sum_range_succ, List.range_succ]
  · rw [getGradientND_eq (by decide : 0 < 1) (by decide : Matrix.Shape 1 1 [[5]])
      (by decide : Matrix.Shape 1 1 [[1]]) (by decide : Matrix.Shape 1 1 [[1]])]
    norm_num [Matrix.ofFn, Matrix.entry, Finset.sum_range_succ, List.range_succ]
  · norm_num [Matrix.entry]

/-- C2 (code defect).  At `n = 2`, `Sigma = 2`, `C = 2`, `theta = 1`, `lambda = 1` (the first
iteration on features `[1, 1]`, labels `[1, 1]`) `getGradient1D` returns `1/2`: the
regularizer `lambda * theta` is inside the factor `1/n`, whereas
`(1/n) * (Sigma*theta - C) + lambda*theta` is `1`. -/
theorem C2_regularizer_inside_factor :
    accumulate1D [1, 1] [1, 1] = some (2, 2) ∧
    getGradient1D ([1, 1] : List ℤ).length 2 2 1 1 = 1 / 2 ∧
    getGradient1D ([1, 1] : List ℤ).length 2 2 1 1 ≠
      (1 / ((([1, 1] : List ℤ).length : ℕ) : ℚ)) * (((2 : ℤ) : ℚ) * 1 - ((2 : ℤ) : ℚ)) + 1 * 1 := by
  refine ⟨by decide, ?_, ?_⟩ <;> norm_num [getGradient1D]

/-- C3 (code defect).  On features `[1, 1]`, labels `[0, 0]`, `alpha = 1`, `lambda = 0` and one
iteration, `linearRegression1D` returns `0` while `linearRegressionND` on the same data as a
`2 × 1` matrix returns `[[-1]]`. -/
theorem C3_scalar_and_general_forms_differ :
    linearRegression1D [1, 1] [0, 0] 1 0 1 = some 0 ∧
    linearRegressionND [[1], [1]] [[0], [0]] 1 0 1 = some [[-1]] := by
  constructor
  · rw [linearRegression1D_of_acc (show accumulate1D [1, 1] [0, 0] = some (2, 0) by decide)]
    norm_num [descentStep1D, getGradient1D]
  · rw [linearRegressionND_eq (by decide : 0 < 2) (by decide : Matrix.Shape 2 1 [[1], [1]])
      (by decide : Matrix.Shape 2 1 [[0], [0]]), forLoop_succ]
    simp only [forLoop, Option.some_bind]
    rw [descentStepND_eq (by decide : 0 < 1) (Matrix.shape_ofFn 1 1 _) (Matrix.shape_ofFn 1 1 _)
      (Matrix.shape_fill 1 1 1)]
    norm_num [Matrix.ofFn, Matrix.fill, Matrix.entry, Finset.sum_range_succ, List.range_succ]

/-- C4.  On an `n × d` feature matrix `X` and `n × 1` label matrix `y` with `n ≥ 1`, the
accumulation pass of `linearRegressionND` returns a `d × d` sigma with
`sigma[i][j] = ∑ k, X[k][i] * X[k][j]` and a `d × 1` c with `c[i][0] = ∑ k, X[k][i] * y[k][0]`
(for every `d`, in particular for `d ≥ 1`). -/
theorem C4_sufficient_statistics {n d : Nat} (hn : 0 < n) (X y : Matrix)
    (hX : Matrix.Shape n d X) (hy : Matrix.Shape n 1 y) :
    ∃ sigma c, accumulateND X y = some (sigma, c) ∧
      Matrix.Shape d d sigma ∧ Matrix.Shape d 1 c ∧
      (∀ i j, i < d → j < d →
        sigma.entry i j = ∑ k ∈ Finset.range n, X.entry k i * X.entry k j) ∧
      (∀ i, i < d → c.entry i 0 = ∑ k ∈ Finset.range n, X.entry k i * y.entry k 0) := by
  refine ⟨_, _, accumulateND_eq hn hX hy, Matrix.shape_ofFn d d _, Matrix.shape_ofFn d 1 _,
    ?_, ?_⟩
  · intro i j hi hj
    rw [Matrix.entry_ofFn _ hi hj]
  · intro i hi
    rw [Matrix.entry_ofFn _ hi Nat.one_pos]

/-- C4 at a concrete dataset: two observations of two features. -/
theorem C4_sufficient_statistics_witness :
    0 < 2 ∧ Matrix.Shape 2 2 [[1, 2], [3, 4]] ∧ Matrix.Shape 2 1 [[5], [6]] ∧
    ∃ sigma c, accumulateND [[1, 2], [3, 4]] [[5], [6]] = some (sigma, c) ∧
      Matrix.Shape 2 2 sigma ∧ Matrix.Shape 2 1 c ∧
      (∀ i j, i < 2 → j < 2 → sigma.entry i j =
        ∑ k ∈ Finset.range 2, Matrix.entry [[1, 2], [3, 4]] k i *
          Matrix.entry [[1, 2], [3, 4]] k j) ∧
      (∀ i, i < 2 → c.entry i 0 =
        ∑ k ∈ Finset.range 2, Matrix.entry [[1, 2], [3, 4]] k i *
          Matrix.entry [[5], [6]] k 0) :=
  ⟨by decide, by decide, by decide,
    C4_sufficient_statistics (by decide) [[1, 2], [3, 4]] [[5], [6]] (by decide) (by decide)⟩

/-- C5.  On the authors' first test (features `[1,2,3,4,5]`, labels `[-3,-6,-9,-12,-15]`,
`alpha = 1/100`, `lambda = 0`, 100 iterations) `linearRegression1D` returns a theta within
`1/2` of `-3`. -/
theorem C5_exact_recovery_test1 :
    ∃ theta, linearRegression1D [1, 2, 3, 4, 5] [-3, -6, -9, -12, -15] (1 / 100) 0 100
        = some theta ∧ |theta - (-3)| < 1 / 2 := by
  have hacc : accumulate1D [1, 2, 3, 4, 5] [-3, -6, -9, -12, -15] = some (55, -165) := by
    decide
  refine ⟨_, linearRegression1D_of_acc hacc (1 / 100) 0 100, ?_⟩
  have hlen : ([1, 2, 3, 4, 5] : List ℤ).length = 5 := rfl
  rw [hlen, descentStep1D_test1 100]
  rw [abs_lt]
  constructor <;> norm_num

/-- C6.  On a valid dataset, for every `alpha`, `lambda` and `k`, `linearRegressionND` with
`k + 1` iterations returns `theta_k - alpha * g` entry by entry, where `theta_k` is what it
returns with `k` iterations and `g` is what `getGradientND` returns at `theta_k` on the
accumulated sigma and c; and `linearRegression1D` with `k + 1` iterations returns
`theta_k - alpha * getGradient1D n Sigma C theta_k lambda`. -/
theorem C6_descent_recurrence (n d : Nat) (hn : 0 < n) (hd : 0 < d) (X y : Matrix)
    (hX : Matrix.Shape n d X) (hy : Matrix.Shape n 1 y) (features labels : List ℤ)
    (hlen : features.length = labels.length) (alpha lambda : ℚ) (k : Nat) :
    (∃ sigma c thetaK g thetaK1, accumulateND X y = some (sigma, c) ∧
      linearRegressionND X y alpha lambda k = some thetaK ∧
      getGradientND sigma c thetaK lambda = some g ∧
      linearRegressionND X y alpha lambda (k + 1) = some thetaK1 ∧
      Matrix.Shape d 1 thetaK ∧ Matrix.Shape d 1 g ∧ Matrix.Shape d 1 thetaK1 ∧
      ∀ i, i < d → thetaK1.entry i 0 = thetaK.entry i 0 - alpha * g.entry i 0) ∧
    (∃ Sigma C thetaK, accumulate1D features labels = some (Sigma, C) ∧
      linearRegression1D features labels alpha lambda k = some thetaK ∧
      linearRegression1D features labels alpha lambda (k + 1) =
        some (thetaK - alpha * getGradient1D features.length Sigma C thetaK lambda)) := by
  constructor
  · have hsig := Matrix.shape_ofFn d d
      (fun i j => ∑ k ∈ Finset.range n, X.entry k i * X.entry k j)
    have hc := Matrix.shape_ofFn d 1
      (fun i _ => ∑ k ∈ Finset.range n, X.entry k i * y.entry k 0)
    obtain ⟨thetaK, hK, hsK⟩ := descentLoopND_shape hd hsig hc alpha lambda _
      (Matrix.shape_fill d 1 1) k
    have e1 : linearRegressionND X y alpha lambda k = some thetaK := by
      rw [linearRegressionND_eq hn hX hy]; exact hK
    have e2 := descentStepND_eq hd hsig hc hsK alpha lambda
    have e3 := Eq.trans
      (show linearRegressionND X y alpha lambda (k + 1) = descentStepND
          (Matrix.ofFn d d (fun i j => ∑ k ∈ Finset.range n, X.entry k i * X.entry k j))
          (Matrix.ofFn d 1 (fun i _ => ∑ k ∈ Finset.range n, X.entry k i * y.entry k 0))
          alpha lambda thetaK by
        rw [linearRegressionND_eq hn hX hy, forLoop_succ, hK]; rfl) e2
    refine ⟨_, _, thetaK, _, _, accumulateND_eq hn hX hy, e1,
      getGradientND_eq hd hsig hc hsK lambda, e3, hsK, Matrix.shape_ofFn d 1 _,
      Matrix.shape_ofFn d 1 _, ?_⟩
    intro i hi
    simp only [Matrix.entry_ofFn _ hi Nat.one_pos]
  · obtain ⟨Sigma, C, hacc⟩ := accumulate1D_total features labels hlen
    refine ⟨Sigma, C, _, hacc, linearRegression1D_of_acc hacc alpha lambda k, ?_⟩
    rw [linearRegression1D_of_acc hacc alpha lambda (k + 1), Function.iterate_succ_apply']
    rfl

/-- C6 at a concrete dataset: two observations of one feature, fourth iteration. -/
theorem C6_descent_recurrence_witness :
    0 < 2 ∧ 0 < 1 ∧ Matrix.Shape 2 1 [[1], [2]] ∧ Matrix.Shape 2 1 [[3], [4]] ∧
    ([1, 2] : List ℤ).length = ([3, 4] : List ℤ).length ∧
    (∃ sigma c thetaK g thetaK1, accumulateND [[1], [2]] [[3], [4]] = some (sigma, c) ∧
      linearRegressionND [[1], [2]] [[3], [4]] (1 / 10) (1 / 2) 3 = some thetaK ∧
      getGradientND sigma c thetaK (1 / 2) = some g ∧
      linearRegressionND [[1], [2]] [[3], [4]] (1 / 10) (1 / 2) (3 + 1) = some thetaK1 ∧
      Matrix.Shape 1 1 thetaK ∧ Matrix.Shape 1 1 g ∧ Matrix.Shape 1 1 thetaK1 ∧
      ∀ i, i < 1 → thetaK1.entry i 0 = thetaK.entry i 0 - (1 / 10) * g.entry i 0) ∧
    (∃ Sigma C thetaK, accumulate1D [1, 2] [3, 4] = some (Sigma, C) ∧
      linearRegression1D [1, 2] [3, 4] (1 / 10) (1 / 2) 3 = some thetaK ∧
      linearRegression1D [1, 2] [3, 4] (1 / 10) (1 / 2) (3 + 1) =
        some (thetaK - (1 / 10) * getGradient1D ([1, 2] : List ℤ).length Sigma C thetaK
          (1 / 2))) :=
  ⟨by decide, by decide, by decide, by decide, rfl,
    C6_descent_recurrence 2 1 (by decide) (by decide) [[1], [2]] [[3], [4]] (by decide) (by decide)
      [1, 2] [3, 4] rfl (1 / 10) (1 / 2) 3⟩

/-- C7.  With zero iterations, on a valid dataset and for every `alpha` and `lambda`,
`linearRegression1D` returns `1` and `linearRegressionND` returns the `d × 1` matrix whose
every entry is `1`. -/
theorem C7_fixed_starting_point (n d : Nat) (hn : 0 < n) (X y : Matrix)
    (hX : Matrix.Shape n d X) (hy : Matrix.Shape n 1 y) (features labels : List ℤ)
    (hlen : features.length = labels.length) (alpha lambda : ℚ) :
    linearRegression1D features labels alpha lambda 0 = some 1 ∧
    ∃ theta, linearRegressionND X y alpha lambda 0 = some theta ∧
      theta = List.replicate d [1] ∧ Matrix.Shape d 1 theta ∧
      ∀ i, i < d → theta.entry i 0 = 1 := by
  obtain ⟨Sigma, C, hacc⟩ := accumulate1D_total features labels hlen
  refine ⟨linearRegression1D_of_acc hacc alpha lambda 0, Matrix.fill d 1 1, ?_,
    rfl, Matrix.shape_fill d 1 1, ?_⟩
  · rw [linearRegressionND_eq hn hX hy]; rfl
  · intro i hi
    exact Matrix.entry_fill 1 hi Nat.one_pos

/-- C7 at concrete datasets, among them the features and labels of the third test. -/
theorem C7_fixed_starting_point_witness :
    0 < 2 ∧ Matrix.Shape 2 3 [[1, 3, 5], [2, 4, 6]] ∧ Matrix.Shape 2 1 [[311], [414]] ∧
    ([1, 2, 3] : List ℤ).length = ([4, 5, 6] : List ℤ).length ∧
    linearRegression1D [1, 2, 3] [4, 5, 6] (1 / 100) (2 / 5) 0 = some 1 ∧
    ∃ theta, linearRegressionND [[1, 3, 5], [2, 4, 6]] [[311], [414]] (1 / 100) (2 / 5) 0
        = some theta ∧
      theta = List.replicate 3 [1] ∧ Matrix.Shape 3 1 theta ∧
      ∀ i, i < 3 → theta.entry i 0 = 1 :=
  ⟨by decide, by decide, by decide, rfl,
    C7_fixed_starting_point 2 3 (by decide) [[1, 3, 5], [2, 4, 6]] [[311], [414]] (by decide)
      (by decide) [1, 2, 3] [4, 5, 6] rfl (1 / 100) (2 / 5)⟩

/-- C8.  For two datasets `(X1, y1)` (`n1 × d`, `n1 × 1`) and `(X2, y2)` (`n2 × d`, `n2 × 1`)
with `n1, n2 ≥ 1`, the sigma and c accumulated for the row-wise concatenation
`(X1 ++ X2, y1 ++ y2)` are the entry-wise sums of those accumulated for each dataset. -/
theorem C8_statistics_merge_by_addition (n1 n2 d : Nat) (h1 : 0 < n1) (h2 : 0 < n2)
    (X1 y1 X2 y2 : Matrix) (hX1 : Matrix.Shape n1 d X1) (hy1 : Matrix.Shape n1 1 y1)
    (hX2 : Matrix.Shape n2 d X2) (hy2 : Matrix.Shape n2 1 y2) :
    ∃ s1 c1 s2 c2 s c, accumulateND X1 y1 = some (s1, c1) ∧
      accumulateND X2 y2 = some (s2, c2) ∧
      accumulateND (X1 ++ X2) (y1 ++ y2) = some (s, c) ∧
      Matrix.Shape d d s ∧ Matrix.Shape d 1 c ∧
      (∀ i j, i < d → j < d → s.entry i j = s1.entry i j + s2.entry i j) ∧
      (∀ i, i < d → c.entry i 0 = c1.entry i 0 + c2.entry i 0) := by
  refine ⟨_, _, _, _, _, _, accumulateND_eq h1 hX1 hy1, accumulateND_eq h2 hX2 hy2,
    accumulateND_eq (Nat.add_pos_left h1 n2) (Matrix.shape_append hX1 hX2)
      (Matrix.shape_append hy1 hy2),
    Matrix.shape_ofFn d d _, Matrix.shape_ofFn d 1 _, ?_, ?_⟩
  · intro i j hi hj
    rw [Matrix.entry_ofFn _ hi hj, Matrix.entry_ofFn _ hi hj, Matrix.entry_ofFn _ hi hj]
    exact sum_rows_append hX1.1 hX1.1 i j
  · intro i hi
    rw [Matrix.entry_ofFn _ hi Nat.one_pos, Matrix.entry_ofFn _ hi Nat.one_pos,
      Matrix.entry_ofFn _ hi Nat.one_pos]
    exact sum_rows_append hX1.1 hy1.1 i 0

/-- C8 at concrete datasets of one and of two observations of two features. -/
theorem C8_statistics_merge_by_addition_witness :
    0 < 1 ∧ 0 < 2 ∧ Matrix.Shape 1 2 [[1, 2]] ∧ Matrix.Shape 1 1 [[5]] ∧
    Matrix.Shape 2 2 [[3, 4], [-1, 0]] ∧ Matrix.Shape 2 1 [[6], [7]] ∧
    ∃ s1 c1 s2 c2 s c, accumulateND [[1, 2]] [[5]] = some (s1, c1) ∧
      accumulateND [[3, 4], [-1, 0]] [[6], [7]] = some (s2, c2) ∧
      accumulateND ([[1, 2]] ++ [[3, 4], [-1, 0]]) ([[5]] ++ [[6], [7]]) = some (s, c) ∧
      Matrix.Shape 2 2 s ∧ Matrix.Shape 2 1 c ∧
      (∀ i j, i < 2 → j < 2 → s.entry i j = s1.entry i j + s2.entry i j) ∧
      (∀ i, i < 2 → c.entry i 0 = c1.entry i 0 + c2.entry i 0) :=
  ⟨by decide, by decide, by decide, by decide, by decide, by decide,
    C8_statistics_merge_by_addition 1 2 2 (by decide) (by decide) [[1, 2]] [[5]] [[3, 4], [-1, 0]]
      [[6], [7]] (by decide) (by decide) (by decide) (by decide)⟩

/-- C11.  For `A` of shape `r × m` and `B` of shape `m × c` with `m ≥ 1`, `matrixMultiply`
called with a zero-filled `r × c` buffer returns the `r × c` matrix whose `(i, j)` entry is
`∑ k < m, A[i][k] * B[k][j]` (for every `r` and `c`, in particular for `r, c ≥ 1`). -/
theorem C11_matrixMultiply_is_product {r m c : Nat} (hm : 0 < m) (A B : Matrix)
    (hA : Matrix.Shape r m A) (hB : Matrix.Shape m c B) :
    ∃ res, matrixMultiply (Ref.val A) (Ref.val B) (Matrix.fill r c 0) = some res ∧
      Matrix.Shape r c res ∧
      ∀ i j, i < r → j < c →
        res.entry i j = ∑ k ∈ Finset.range m, A.entry i k * B.entry k j := by
  refine ⟨_, matrixMultiply_eq hA hB hm _ (Matrix.shape_fill r c 0), Matrix.shape_ofFn r c _,
    ?_⟩
  intro i j hi hj
  rw [Matrix.entry_ofFn _ hi hj, Matrix.entry_fill 0 hi hj, zero_add]

/-- C11 at concrete operands of shapes `2 × 3` and `3 × 2`. -/
theorem C11_matrixMultiply_is_product_witness :
    0 < 3 ∧ Matrix.Shape 2 3 [[1, 2, 3], [4, 5, 6]] ∧
    Matrix.Shape 3 2 [[1, 0], [0, 1], [2, -1]] ∧
    ∃ res, matrixMultiply (Ref.val [[1, 2, 3], [4, 5, 6]]) (Ref.val [[1, 0], [0, 1], [2, -1]])
        (Matrix.fill 2 2 0) = some res ∧
      Matrix.Shape 2 2 res ∧
      ∀ i j, i < 2 → j < 2 →
        res.entry i j = ∑ k ∈ Finset.range 3, Matrix.entry [[1, 2, 3], [4, 5, 6]] i k *
          Matrix.entry [[1, 0], [0, 1], [2, -1]] k j :=
  ⟨by decide, by decide, by decide,
    C11_matrixMultiply_is_product (by decide) [[1, 2, 3], [4, 5, 6]] [[1, 0], [0, 1], [2, -1]]
      (by decide) (by decide)⟩

/-- C12 (as stated, refuted).  With `A = [[1]]` and `B = [[1]]`, `matrixMultiply` leaves
`[[1]]` in a buffer that held `[[0]]` and `[[6]]` in a buffer that held `[[5]]`. -/
theorem C12_result_depends_on_prior_buffer :
    matrixMultiply (Ref.val [[1]]) (Ref.val [[1]]) [[0]] = some [[1]] ∧
    matrixMultiply (Ref.val [[1]]) (Ref.val [[1]]) [[5]] = some [[6]] ∧
    ([[1]] : Matrix) ≠ [[6]] := by
  have hA : Matrix.Shape 1 1 [[1]] := by decide
  refine ⟨?_, ?_, by norm_num⟩
  · rw [matrixMultiply_eq hA hA Nat.one_pos [[0]] (by decide)]
    norm_num [Matrix.ofFn, Matrix.entry, Finset.sum_range_succ, List.range_succ]
  · rw [matrixMultiply_eq hA hA Nat.one_pos [[5]] (by decide)]
    norm_num [Matrix.ofFn, Matrix.entry, Finset.sum_range_succ, List.range_succ]

/-- C12 (amended).  In exact arithmetic: for `A` of shape `r × m` and `B` of shape `m × c`
with `m ≥ 1` and any two `r × c` buffers with arbitrary prior contents, each run of
`matrixMultiply` returns and leaves the prior contents of its buffer plus the product, entry
by entry; so the contents after the two runs are the same when the two buffers held the same
contents before (in particular when both are zero-filled). -/
theorem C12_matrixMultiply_adds_to_buffer {r m c : Nat} (hm : 0 < m) (A B buf1 buf2 : Matrix)
    (hA : Matrix.Shape r m A) (hB : Matrix.Shape m c B) (h1 : Matrix.Shape r c buf1)
    (h2 : Matrix.Shape r c buf2) :
    ∃ res1 res2, matrixMultiply (Ref.val A) (Ref.val B) buf1 = some res1 ∧
      matrixMultiply (Ref.val A) (Ref.val B) buf2 = some res2 ∧
      Matrix.Shape r c res1 ∧ Matrix.Shape r c res2 ∧
      (∀ i j, i < r → j < c → res1.entry i j =
        buf1.entry i j + ∑ k ∈ Finset.range m, A.entry i k * B.entry k j) ∧
      (∀ i j, i < r → j < c → res2.entry i j =
        buf2.entry i j + ∑ k ∈ Finset.range m, A.entry i k * B.entry k j) ∧
      (buf1 = buf2 → res1 = res2) := by
  refine ⟨_, _, matrixMultiply_eq hA hB hm buf1 h1, matrixMultiply_eq hA hB hm buf2 h2,
    Matrix.shape_ofFn r c _, Matrix.shape_ofFn r c _, ?_, ?_, ?_⟩
  · intro i j hi hj
    rw [Matrix.entry_ofFn _ hi hj]
  · intro i j hi hj
    rw [Matrix.entry_ofFn _ hi hj]
  · intro h
    rw [h]

/-- C12 (amended) at `1 × 2` and `2 × 1` operands and two different `1 × 1` buffers. -/
theorem C12_matrixMultiply_adds_to_buffer_witness :
    0 < 2 ∧ Matrix.Shape 1 2 [[1, 2]] ∧ Matrix.Shape 2 1 [[3], [4]] ∧
    Matrix.Shape 1 1 [[0]] ∧ Matrix.Shape 1 1 [[7]] ∧
    ∃ res1 res2, matrixMultiply (Ref.val [[1, 2]]) (Ref.val [[3], [4]]) [[0]] = some res1 ∧
      matrixMultiply (Ref.val [[1, 2]]) (Ref.val [[3], [4]]) [[7]] = some res2 ∧
      Matrix.Shape 1 1 res1 ∧ Matrix.Shape 1 1 res2 ∧
      (∀ i j, i < 1 → j < 1 → res1.entry i j = Matrix.entry [[0]] i j +
        ∑ k ∈ Finset.range 2, Matrix.entry [[1, 2]] i k * Matrix.entry [[3], [4]] k j) ∧
      (∀ i j, i < 1 → j < 1 → res2.entry i j = Matrix.entry [[7]] i j +
        ∑ k ∈ Finset.range 2, Matrix.entry [[1, 2]] i k * Matrix.entry [[3], [4]] k j) ∧
      (([[0]] : Matrix) = [[7]] → res1 = res2) :=
  ⟨by decide, by decide, by decide, by decide, by decide,
    C12_matrixMultiply_adds_to_buffer (by decide) [[1, 2]] [[3], [4]] [[0]] [[7]] (by decide)
      (by decide) (by decide) (by decide)⟩

/-- C13.  On an `n × d` feature matrix and `n × 1` label matrix with `n, d ≥ 1`, for every
`alpha`, `lambda` and iteration count, `linearRegressionND` returns a matrix with exactly `d`
rows, each of exactly one entry. -/
theorem C13_output_shape (n d : Nat) (hn : 0 < n) (hd : 0 < d) (X y : Matrix)
    (hX : Matrix.Shape n d X) (hy : Matrix.Shape n 1 y) (alpha lambda : ℚ) (iter : Nat) :
    ∃ theta, linearRegressionND X y alpha lambda iter = some theta ∧
      theta.length = d ∧ ∀ row ∈ theta, row.length = 1 := by
  obtain ⟨theta, h, hs⟩ := descentLoopND_shape hd
    (Matrix.shape_ofFn d d (fun i j => ∑ k ∈ Finset.range n, X.entry k i * X.entry k j))
    (Matrix.shape_ofFn d 1 (fun i _ => ∑ k ∈ Finset.range n, X.entry k i * y.entry k 0))
    alpha lambda _ (Matrix.shape_fill d 1 1) iter
  refine ⟨theta, ?_, hs.1, hs.2⟩
  rw [linearRegressionND_eq hn hX hy]
  exact h

/-- C13 at the authors' second and third tests: the results are `2 × 1` and `3 × 1`. -/
theorem C13_output_shape_witness :
    (0 < 4 ∧ 0 < 2 ∧ Matrix.Shape 4 2 [[-1, 3], [2, -4], [5, -2], [3, -1]] ∧
      Matrix.Shape 4 1 [[-19 / 2], [15], [43 / 2], [25 / 2]] ∧
      ∃ theta, linearRegressionND [[-1, 3], [2, -4], [5, -2], [3, -1]]
          [[-19 / 2], [15], [43 / 2], [25 / 2]] (1 / 100) 0 100 = some theta ∧
        theta.length = 2 ∧ ∀ row ∈ theta, row.length = 1) ∧
    (0 < 2 ∧ 0 < 3 ∧ Matrix.Shape 2 3 [[1, 3, 5], [2, 4, 6]] ∧
      Matrix.Shape 2 1 [[311], [414]] ∧
      ∃ theta, linearRegressionND [[1, 3, 5], [2, 4, 6]] [[311], [414]] (1 / 100) (2 / 5) 100
          = some theta ∧
        theta.length = 3 ∧ ∀ row ∈ theta, row.length = 1) :=
  ⟨⟨by decide, by decide, by decide, by decide,
      C13_output_shape 4 2 (by decide) (by decide) [[-1, 3], [2, -4], [5, -2], [3, -1]]
        [[-19 / 2], [15], [43 / 2], [25 / 2]] (by decide) (by decide) (1 / 100) 0 100⟩,
    ⟨by decide, by decide, by decide, by decide,
      C13_output_shape 2 3 (by decide) (by decide) [[1, 3, 5], [2, 4, 6]] [[311], [414]]
        (by decide) (by decide) (1 / 100) (2 / 5) 100⟩⟩

/-- C14.  On an `n × d` feature matrix and `n × 1` label matrix with `n ≥ 1`, the sigma
accumulated by `linearRegressionND` is symmetric: `sigma[i][j] = sigma[j][i]` for all
`i, j < d`. -/
theorem C14_sigma_symmetric (n d : Nat) (hn : 0 < n) (X y : Matrix)
    (hX : Matrix.Shape n d X) (hy : Matrix.Shape n 1 y) :
    ∃ sigma c, accumulateND X y = some (sigma, c) ∧
      ∀ i j, i < d → j < d → sigma.entry i j = sigma.entry j i := by
  refine ⟨_, _, accumulateND_eq hn hX hy, ?_⟩
  intro i j hi hj
  rw [Matrix.entry_ofFn _ hi hj, Matrix.entry_ofFn _ hj hi]
  apply Finset.sum_congr rfl
  intro k _
  exact mul_comm _ _

/-- C14 at the features and labels of the authors' second test. -/
theorem C14_sigma_symmetric_witness :
    0 < 4 ∧ Matrix.Shape 4 2 [[-1, 3], [2, -4], [5, -2], [3, -1]] ∧
    Matrix.Shape 4 1 [[-19 / 2], [15], [43 / 2], [25 / 2]] ∧
    ∃ sigma c, accumulateND [[-1, 3], [2, -4], [5, -2], [3, -1]]
        [[-19 / 2], [15], [43 / 2], [25 / 2]] = some (sigma, c) ∧
      ∀ i j, i < 2 → j < 2 → sigma.entry i j = sigma.entry j i :=
  ⟨by decide, by decide, by decide,
    C14_sigma_symmetric 4 2 (by decide) [[-1, 3], [2, -4], [5, -2], [3, -1]]
      [[-19 / 2], [15], [43 / 2], [25 / 2]] (by decide) (by decide)⟩

/-- C15 (as stated, refuted).  On features `[65536]`, labels `[1]`, `alpha = 1`, `lambda = 0`
and one iteration the `int` product `65536 * 65536` wraps to `0`, so the code holds
`Sigma = 0`, `C = 65536` and returns `65537`, whereas one step of
`theta ← theta - alpha * (1/n) * (Sigma * theta - C)` on the sum of squared features `2^32`
gives `-4294901759`. -/
theorem C15_int_accumulator_wraps :
    accumulate1D [65536] [1] = some (0, 65536) ∧
    linearRegression1D [65536] [1] 1 0 1 = some 65537 ∧
    unregularizedDescent1D ([65536] : List ℤ).length (sumSquares [65536])
      (sumProducts [65536] [1]) 1 1 = -4294901759 ∧
    linearRegression1D [65536] [1] 1 0 1 ≠ some
      (unregularizedDescent1D ([65536] : List ℤ).length (sumSquares [65536])
        (sumProducts [65536] [1]) 1 1) := by
  have h : accumulate1D [65536] [1] = some (0, 65536) := by decide
  have h1 : linearRegression1D [65536] [1] 1 0 1 = some 65537 := by
    rw [linearRegression1D_of_acc h]
    norm_num [descentStep1D, getGradient1D]
  have h2 : unregularizedDescent1D ([65536] : List ℤ).length (sumSquares [65536])
      (sumProducts [65536] [1]) 1 1 = -4294901759 := by
    norm_num [unregularizedDescent1D, sumSquares, sumProducts]
  refine ⟨h, h1, h2, ?_⟩
  rw [h1, h2]
  norm_num

/-- C15 (amended).  In exact arithmetic: on a non-empty integer dataset (equally long
features and labels) whose sum of squared features and sum of absolute feature-label products
are below `2^31` (no `int` accumulator wraps), for every `alpha` and iteration count,
`linearRegression1D` with `lambda = 0` returns the result of starting at `theta = 1` and
applying `theta ← theta - alpha * (1/n) * (Sigma * theta - C)` that many times, with `Sigma`
the sum of squared features, `C` the sum of feature-label products and `n` the number of
observations. -/
theorem C15_lambda_zero_is_unregularized (features labels : List ℤ)
    (hlen : features.length = labels.length) (_hn : 0 < features.length)
    (hS : sumSquares features < 2147483648)
    (hC : sumAbsProducts features labels < 2147483648) (alpha : ℚ) (iter : Nat) :
    linearRegression1D features labels alpha 0 iter = some
      (unregularizedDescent1D features.length (sumSquares features)
        (sumProducts features labels) alpha iter) := by
  rw [linearRegression1D_sums features labels hlen hS hC, unregularizedDescent1D]
  congr 2
  funext theta
  simp only [descentStep1D, getGradient1D]
  ring

/-- C15 (amended) at the data of the authors' first test. -/
theorem C15_lambda_zero_is_unregularized_witness :
    ([1, 2, 3, 4, 5] : List ℤ).length = ([-3, -6, -9, -12, -15] : List ℤ).length ∧
    0 < ([1, 2, 3, 4, 5] : List ℤ).length ∧
    sumSquares [1, 2, 3, 4, 5] < 2147483648 ∧
    sumAbsProducts [1, 2, 3, 4, 5] [-3, -6, -9, -12, -15] < 2147483648 ∧
    linearRegression1D [1, 2, 3, 4, 5] [-3, -6, -9, -12, -15] (1 / 100) 0 100 = some
      (unregularizedDescent1D ([1, 2, 3, 4, 5] : List ℤ).length (sumSquares [1, 2, 3, 4, 5])
        (sumProducts [1, 2, 3, 4, 5] [-3, -6, -9, -12, -15]) (1 / 100) 100) :=
  ⟨rfl, by decide, by decide, by decide,
    C15_lambda_zero_is_unregularized [1, 2, 3, 4, 5] [-3, -6, -9, -12, -15] rfl (by decide)
      (by decide) (by decide) (1 / 100) 100⟩

/-- C16.  For `A` of shape `r × m` and `B` of shape `p × c` with `m > p ≥ 1`, `matrixMultiply`
with a zero-filled `r × c` buffer returns (no index access fails) and leaves the `r × c`
matrix whose `(i, j)` entry is `∑ k < p, A[i][k] * B[k][j]`: the columns `p, …, m - 1` of `A`
are never read. -/
theorem C16_incompatible_multiply_is_silent (r m p c : Nat) (hp : 0 < p) (hpm : p < m)
    (A B : Matrix) (hA : Matrix.Shape r m A) (hB : Matrix.Shape p c B) :
    ∃ res, matrixMultiply (Ref.val A) (Ref.val B) (Matrix.fill r c 0) = some res ∧
      Matrix.Shape r c res ∧
      ∀ i j, i < r → j < c →
        res.entry i j = ∑ k ∈ Finset.range p, A.entry i k * B.entry k j := by
  refine ⟨_, matrixMultiply_narrow_eq hA hB hp (Nat.le_of_lt hpm) _ (Matrix.shape_fill r c 0),
    Matrix.shape_ofFn r c _, ?_⟩
  intro i j hi hj
  rw [Matrix.entry_ofFn _ hi hj, Matrix.entry_fill 0 hi hj, zero_add]

/-- C16 at a `2 × 3` first operand and a `2 × 1` second operand. -/
theorem C16_incompatible_multiply_is_silent_witness :
    0 < 2 ∧ 2 < 3 ∧ Matrix.Shape 2 3 [[1, 2, 3], [4, 5, 6]] ∧ Matrix.Shape 2 1 [[7], [8]] ∧
    ∃ res, matrixMultiply (Ref.val [[1, 2, 3], [4, 5, 6]]) (Ref.val [[7], [8]])
        (Matrix.fill 2 1 0) = some res ∧
      Matrix.Shape 2 1 res ∧
      ∀ i j, i < 2 → j < 1 →
        res.entry i j = ∑ k ∈ Finset.range 2, Matrix.entry [[1, 2, 3], [4, 5, 6]] i k *
          Matrix.entry [[7], [8]] k j :=
  ⟨by decide, by decide, by decide, by decide,
    C16_incompatible_multiply_is_silent 2 3 2 1 (by decide) (by decide) [[1, 2, 3], [4, 5, 6]]
      [[7], [8]] (by decide) (by decide)⟩

/-- C17 (as stated, refuted).  On features `[65536]`, labels `[1]`, `alpha = 1`, `lambda = 1`
and `k = 1` the `int` product `65536 * 65536` wraps to `0`, so the code holds `Sigma = 0`,
`C = 65536` and returns `65536`, whereas the closed form on the sum of squared features
`2^32` gives `-4294901760`. -/
theorem C17_closed_form_fails_on_wrap :
    accumulate1D [65536] [1] = some (0, 65536) ∧
    ((sumSquares [65536] : ℤ) : ℚ) + 1 ≠ 0 ∧
    linearRegression1D [65536] [1] 1 1 1 = some 65536 ∧
    (sumProducts [65536] [1] : ℚ) / ((sumSquares [65536] : ℚ) + 1)
        + (1 - 1 * ((sumSquares [65536] : ℚ) + 1) / (([65536] : List ℤ).length : ℚ)) ^ 1
          * (1 - (sumProducts [65536] [1] : ℚ) / ((sumSquares [65536] : ℚ) + 1))
      = -4294901760 := by
  have h : accumulate1D [65536] [1] = some (0, 65536) := by decide
  refine ⟨h, by norm_num [sumSquares], ?_, by norm_num [sumSquares, sumProducts]⟩
  rw [linearRegression1D_of_acc h]
  norm_num [descentStep1D, getGradient1D]

/-- C17 (amended).  In exact arithmetic: on a non-empty integer dataset whose sum of squared
features and sum of absolute feature-label products are below `2^31` (no `int` accumulator
wraps), with `Sigma` the sum of squared features, `C` the sum of feature-label products and
`n` observations, for every `alpha` and `lambda` with `Sigma + lambda ≠ 0`,
`linearRegression1D` after `k` iterations returns `t + r^k * (1 - t)` with
`t = C / (Sigma + lambda)` and `r = 1 - alpha * (Sigma + lambda) / n`. -/
theorem C17_closed_form (features labels : List ℤ)
    (hlen : features.length = labels.length) (_hn : 0 < features.length)
    (hS : sumSquares features < 2147483648)
    (hC : sumAbsProducts features labels < 2147483648) (alpha lambda : ℚ)
    (hne : (sumSquares features : ℚ) + lambda ≠ 0) (k : Nat) :
    linearRegression1D features labels alpha lambda k = some
      ((sumProducts features labels : ℚ) / ((sumSquares features : ℚ) + lambda)
        + (1 - alpha * ((sumSquares features : ℚ) + lambda) / (features.length : ℚ)) ^ k
          * (1 - (sumProducts features labels : ℚ) / ((sumSquares features : ℚ) + lambda))) := by
  rw [linearRegression1D_sums features labels hlen hS hC]
  congr 1
  induction k with
  | zero => simp
  | succ k ih =>
    rw [Function.iterate_succ_apply', ih, descentStep1D_affine _ _ _ _ _ hne, pow_succ]
    ring

/-- C17 (amended) at features `[1, 2]`, labels `[3, 4]`, `alpha = 1/10`, `lambda = 1/2`,
`k = 3`. -/
theorem C17_closed_form_witness :
    ([1, 2] : List ℤ).length = ([3, 4] : List ℤ).length ∧ 0 < ([1, 2] : List ℤ).length ∧
    sumSquares [1, 2] < 2147483648 ∧ sumAbsProducts [1, 2] [3, 4] < 2147483648 ∧
    ((sumSquares [1, 2] : ℤ) : ℚ) + 1 / 2 ≠ 0 ∧
    linearRegression1D [1, 2] [3, 4] (1 / 10) (1 / 2) 3 = some
      ((sumProducts [1, 2] [3, 4] : ℚ) / ((sumSquares [1, 2] : ℚ) + 1 / 2)
        + (1 - (1 / 10) * ((sumSquares [1, 2] : ℚ) + 1 / 2) / (([1, 2] : List ℤ).length : ℚ)) ^ 3
          * (1 - (sumProducts [1, 2] [3, 4] : ℚ) / ((sumSquares [1, 2] : ℚ) + 1 / 2))) :=
  ⟨rfl, by decide, by decide, by decide, by norm_num [sumSquares],
    C17_closed_form [1, 2] [3, 4] rfl (by decide) (by decide) (by decide) (1 / 10) (1 / 2)
      (by norm_num [sumSquares]) 3⟩

/-- C18 (as stated, refuted).  In binary32, on `X = [[4097, 1]]`, `y = [[4098]]` (the label is
the sum of its row, and every value is a `float`), with `alpha = 1`, `lambda = 0` and one
iteration: the product `4097 * 4097 = 16785409` rounds to `16785408`, so the accumulation
pass returns `sigma = [[16785408, 4097], [4097, 1]]`, `c = [[16789506], [4098]]`; at the
all-ones theta the sum `16785408 + 4097` rounds to `16789504`, the gradient is `[[-1], [0]]`
and `linearRegressionND` returns `[[2], [1]]`, not the all-ones vector. -/
theorem C18_rounding_moves_all_ones :
    (∀ k, k < 1 → Matrix.entry [[4098]] k 0
      = ∑ j ∈ Finset.range 2, Matrix.entry [[4097, 1]] k j) ∧
    roundF32 (4097 * 4097) = 16785408 ∧
    Binary32.accumulateND [[4097, 1]] [[4098]]
      = some ([[16785408, 4097], [4097, 1]], [[16789506], [4098]]) ∧
    Binary32.getGradientND [[16785408, 4097], [4097, 1]] [[16789506], [4098]] [[1], [1]] 0
      = some [[-1], [0]] ∧
    Binary32.linearRegressionND [[4097, 1]] [[4098]] 1 0 1 = some [[2], [1]] ∧
    ([[2], [1]] : Matrix) ≠ List.replicate 2 [1] := by
  refine ⟨by decide!, by decide!, by decide!, by decide!, by decide!, by decide!⟩

/-- C18 (amended).  In exact arithmetic: for every `d × d` sigma, `d × 1` c and `d × 1` theta
(`d ≥ 1`) with `sigma * theta = c`, and every `alpha`, one iteration of the update of
`linearRegressionND` with `lambda = 0` returns theta unchanged; and on a valid dataset in
which every label is the sum of its row of features, `linearRegressionND` with `lambda = 0`
returns the all-ones `d × 1` matrix for every `alpha` and iteration count. -/
theorem C18_normal_equations_fixed_point (n d : Nat) (hn : 0 < n) (hd : 0 < d)
    (sigma c theta X y : Matrix) (hsig : Matrix.Shape d d sigma) (hc : Matrix.Shape d 1 c)
    (hth : Matrix.Shape d 1 theta)
    (hnormal : ∀ i, i < d →
      ∑ k ∈ Finset.range d, sigma.entry i k * theta.entry k 0 = c.entry i 0)
    (hX : Matrix.Shape n d X) (hy : Matrix.Shape n 1 y)
    (hlabels : ∀ k, k < n → y.entry k 0 = ∑ j ∈ Finset.range d, X.entry k j)
    (alpha : ℚ) (iter : Nat) :
    descentStepND sigma c alpha 0 theta = some theta ∧
    linearRegressionND X y alpha 0 iter = some (List.replicate d [1]) := by
  refine ⟨descentStepND_fixed hd hsig hc hth hnormal alpha, ?_⟩
  rw [linearRegressionND_eq hn hX hy]
  induction iter with
  | zero => rfl
  | succ k ih =>
    exact forLoop_step ih (descentStepND_fixed hd (Matrix.shape_ofFn d d _)
      (Matrix.shape_ofFn d 1 _) (Matrix.shape_fill d 1 1) (ones_solve_normal hlabels) alpha)

/-- C18 (amended) at `sigma = [[2, 0], [0, 2]]`, `theta = [[1], [2]]`, `c = [[2], [4]]` and at the dataset
`X = [[1, 2], [3, 4]]`, `y = [[3], [7]]`. -/
theorem C18_normal_equations_fixed_point_witness :
    0 < 2 ∧ 0 < 2 ∧ Matrix.Shape 2 2 [[2, 0], [0, 2]] ∧ Matrix.Shape 2 1 [[2], [4]] ∧
    Matrix.Shape 2 1 [[1], [2]] ∧
    (∀ i, i < 2 → ∑ k ∈ Finset.range 2,
      Matrix.entry [[2, 0], [0, 2]] i k * Matrix.entry [[1], [2]] k 0
        = Matrix.entry [[2], [4]] i 0) ∧
    Matrix.Shape 2 2 [[1, 2], [3, 4]] ∧ Matrix.Shape 2 1 [[3], [7]] ∧
    (∀ k, k < 2 → Matrix.entry [[3], [7]] k 0
      = ∑ j ∈ Finset.range 2, Matrix.entry [[1, 2], [3, 4]] k j) ∧
    descentStepND [[2, 0], [0, 2]] [[2], [4]] (1 / 3) 0 [[1], [2]] = some [[1], [2]] ∧
    linearRegressionND [[1, 2], [3, 4]] [[3], [7]] (1 / 3) 0 5 = some (List.replicate 2 [1]) := by
  have hnormal : ∀ i, i < 2 → ∑ k ∈ Finset.range 2,
      Matrix.entry [[2, 0], [0, 2]] i k * Matrix.entry [[1], [2]] k 0
        = Matrix.entry [[2], [4]] i 0 := by
    intro i hi
    interval_cases i <;> norm_num [Matrix.entry, Finset.sum_range_succ]
  have hlabels : ∀ k, k < 2 → Matrix.entry [[3], [7]] k 0
      = ∑ j ∈ Finset.range 2, Matrix.entry [[1, 2], [3, 4]] k j := by
    intro k hk
    interval_cases k <;> norm_num [Matrix.entry, Finset.sum_range_succ]
  exact ⟨by decide, by decide, by decide, by decide, by decide, hnormal, by decide, by decide,
    hlabels,
    C18_normal_equations_fixed_point 2 2 (by decide) (by decide) [[2, 0], [0, 2]] [[2], [4]]
      [[1], [2]] [[1, 2], [3, 4]] [[3], [7]] (by decide) (by decide) (by decide) hnormal
      (by decide) (by decide) hlabels (1 / 3) 5⟩

end LinearRegression
